import Mathlib

/-!
# gh-forks: the pagination state machine of `main.go`

A shallow embedding of the bubbletea model of `main.go` (`model`, `Init`,
`Update`, `gotoNextPage`, `gotoPreviousPage`, `clearModel`, `updateTable`,
`loadCachedPage`) and of the event loop that feeds it, then of the startup
(`main`, `getDefaultBranch`), of `toRepositoryOrderField` and of the closure
of `fetchForks`.

Conventions of the embedding.

* Go `int` is `Int`, and the sums `m.page + 1`, `m.page - 1` and
  `m.table.Height() - 1` are exact.  An exact sum is the Go sum as long as it
  fits in 64 bits (`wrapInt`); in a run from the initial model a page index is
  at most the number of messages handled, and a statement about an arbitrary
  model that computes `m.page + 1` assumes that `m.page` is below `maxInt`.
* `map[int][]Fork` is a function `Int → Option (List Fork)`: `none` is an
  absent key.  A `nil` slice and an empty slice are both `[]`.
* `*string` is `Option String` (`nil` is `none`); `time.Time` is an instant
  counted in seconds since 1970-01-01 00:00:00 UTC.
* The bubbles table and spinner widgets are libraries outside `main.go`.  They
  are taken as a parameter (`Libs`), so every theorem holds for every
  behaviour of the widgets.  A command made by a library is `Cmd.lib`; a
  library cannot build the closure of `fetchForks`, which is defined in
  `main.go`.
* The date cell `f.UpdatedAt.In(time.Local).Format("2006-01-02")` is embedded:
  the layout is the year on four digits, the month and the day on two, with
  dashes, of the calendar date of the instant moved by the offset of the local
  zone.  Only that offset, which the machine decides, is a parameter
  (`Libs.localOffset`).
* A run-time fault (an index out of range) ends `Update` with `Except.error`.
* The key `enter` hands a URL to `openBrowser`; the URL is recorded in
  `Step.opened`.  Opening `os.DevNull` is taken to succeed.
-/

namespace GhForks

/-- The struct `Fork` of `main.go`. -/
structure Fork where
  NameWithOwner : String
  StargazerCount : Int
  ForkCount : Int
  UpdatedAt : Int
  Url : String
  AheadBy : Int
  BehindBy : Int
deriving DecidableEq, Repr

/-- The struct `forksLoadedMsg` of `main.go`. -/
structure forksLoadedMsg where
  forks : List Fork
  page : Int
  totalCount : Int
  endCursor : Option String
  hasNext : Bool
deriving DecidableEq, Repr

/-- A `tea.Msg` as `Update` tells them apart: a key (by `msg.String()`), a
`forksLoadedMsg`, a `spinner.TickMsg`, or any other message. -/
inductive Msg where
  | KeyMsg (s : String)
  | forksLoaded (msg : forksLoadedMsg)
  | TickMsg (tag : Nat)
  | other (tag : Nat)
deriving DecidableEq, Repr

/-- The arguments of one call `fetchForks(owner, name, headRef, page, sortBy, endCursor)`. -/
structure FetchReq where
  owner : String
  name : String
  headRef : String
  page : Int
  sortBy : String
  endCursor : Option String
deriving DecidableEq, Repr

/-- A `tea.Cmd`: `nil`, `tea.Quit`, a command made by a widget library, the
closure returned by `fetchForks`, or a `tea.Batch` of two commands. -/
inductive Cmd where
  | nil
  | Quit
  | lib (tag : Nat)
  | fetch (r : FetchReq)
  | Batch (a b : Cmd)
deriving DecidableEq, Repr

/-- The command returned by `fetchForks(owner, name, headRef, page, sortBy, endCursor)`. -/
def fetchForks (owner name headRef : String) (page : Int) (sortBy : String)
    (endCursor : Option String) : Cmd :=
  Cmd.fetch ⟨owner, name, headRef, page, sortBy, endCursor⟩

/-- A command handed back by a widget: `nil` or a library command. -/
def Cmd.ofLib : Option Nat → Cmd
  | none => Cmd.nil
  | some t => Cmd.lib t

/-- The fetches a command starts when the runtime executes it. -/
def Cmd.fetches : Cmd → List FetchReq
  | Cmd.nil => []
  | Cmd.Quit => []
  | Cmd.lib _ => []
  | Cmd.fetch r => [r]
  | Cmd.Batch a b => a.fetches ++ b.fetches

/-- The libraries `main.go` calls: the bubbles table (`table.New`, `Cursor`,
`Height`, `GotoTop`, `GotoBottom`, `Update`), the bubbles spinner
(`spinner.New`, `Tick`, `Update`), and the zone `time.Local`: `localOffset t`
is the offset of the local zone at the instant `t`, in seconds east of UTC. -/
structure Libs where
  Table : Type
  Spinner : Type
  initialTable : Table
  tableNew : List (List String) → Table
  Cursor : Table → Int
  Height : Table → Int
  GotoTop : Table → Table
  GotoBottom : Table → Table
  tableUpdate : Table → Msg → Table × Option Nat
  spinnerNew : Spinner
  Tick : Spinner → Nat
  spinnerUpdate : Spinner → Msg → Spinner × Option Nat
  localOffset : Int → Int

/-- The struct `model` of `main.go`. -/
structure model (L : Libs) where
  forks : List Fork
  pages : Int → Option (List Fork)
  page : Int
  sortBy : String
  totalCount : Int
  loading : Bool
  spinner : L.Spinner
  table : L.Table
  owner : String
  name : String
  headRef : String
  endCursor : Option String
  lastPage : Int

/-- The empty map, `make(map[int][]Fork)`. -/
def emptyPages : Int → Option (List Fork) := fun _ => none

/-- The assignment `pages[k] = v`. -/
def putPage (pages : Int → Option (List Fork)) (k : Int) (v : List Fork) :
    Int → Option (List Fork) :=
  fun i => if i = k then some v else pages i

/-- The function `strconv.Itoa`. -/
def Itoa (n : Int) : String := toString n

/-! ### The date of an instant

`f.UpdatedAt.In(time.Local).Format("2006-01-02")` writes the calendar date
(proleptic Gregorian, as in package `time`) of the instant in the local zone.
The calendar is given twice: `dayNumber` counts the days of a date from the
rule of the leap years and the lengths of the months, and `civilDate` computes
the date of a day number by cycles of 400, 100, 4 and 1 years; the theorem
`civilDate_dayNumber` shows that they agree. -/

/-- The rule of the leap years. -/
def isLeap (year : Int) : Bool :=
  decide (year % 4 = 0 ∧ (year % 100 ≠ 0 ∨ year % 400 = 0))

/-- The day that a leap year adds after February. -/
def leapDay (leap : Bool) : Int := if leap then 1 else 0

/-- The number of days of the year before the first of a month; month 13
stands for the end of the year. -/
def daysBefore (leap : Bool) (month : Int) : Int :=
  if month ≤ 1 then 0
  else if month = 2 then 31
  else if month = 3 then 59 + leapDay leap
  else if month = 4 then 90 + leapDay leap
  else if month = 5 then 120 + leapDay leap
  else if month = 6 then 151 + leapDay leap
  else if month = 7 then 181 + leapDay leap
  else if month = 8 then 212 + leapDay leap
  else if month = 9 then 243 + leapDay leap
  else if month = 10 then 273 + leapDay leap
  else if month = 11 then 304 + leapDay leap
  else if month = 12 then 334 + leapDay leap
  else 365 + leapDay leap

/-- The number of days of a month. -/
def daysIn (leap : Bool) (month : Int) : Int :=
  daysBefore leap (month + 1) - daysBefore leap month

/-- The day number of the first of January of a year, counted from
1970-01-01: 365 days per year before it, plus one per leap year before it. -/
def yearStart (year : Int) : Int :=
  365 * (year - 1) + (year - 1) / 4 - (year - 1) / 100 + (year - 1) / 400 - 719162

/-- The day number of a calendar date, counted from 1970-01-01. -/
def dayNumber (year month day : Int) : Int :=
  yearStart year + daysBefore (isLeap year) month + (day - 1)

/-- The month in which the day `yday` of the year falls (`yday` counted from
0). -/
def monthOf (leap : Bool) (yday : Int) : Int :=
  if yday < 31 then 1
  else if yday < 59 + leapDay leap then 2
  else if yday < 90 + leapDay leap then 3
  else if yday < 120 + leapDay leap then 4
  else if yday < 151 + leapDay leap then 5
  else if yday < 181 + leapDay leap then 6
  else if yday < 212 + leapDay leap then 7
  else if yday < 243 + leapDay leap then 8
  else if yday < 273 + leapDay leap then 9
  else if yday < 304 + leapDay leap then 10
  else if yday < 334 + leapDay leap then 11
  else 12

/-- The year of a day number and the day within that year, by cycles of 400
years (146097 days), 100 years (36524 days, at most three per cycle), 4 years
(1461 days) and 1 year (365 days, at most three per cycle), from 2001-01-01,
which is day 11323. -/
def yearDay (z : Int) : Int × Int :=
  let d0 := z - 11323
  let n400 := d0 / 146097
  let d1 := d0 - 146097 * n400
  let n100 := if d1 / 36524 < 3 then d1 / 36524 else 3
  let d2 := d1 - 36524 * n100
  let n4 := d2 / 1461
  let d3 := d2 - 1461 * n4
  let n1 := if d3 / 365 < 3 then d3 / 365 else 3
  (2001 + 400 * n400 + 100 * n100 + 4 * n4 + n1, d3 - 365 * n1)

/-- The calendar date (year, month, day) of a day number. -/
def civilDate (z : Int) : Int × Int × Int :=
  let yd := yearDay z
  let month := monthOf (isLeap yd.1) yd.2
  (yd.1, month, yd.2 - daysBefore (isLeap yd.1) month + 1)

/-- The digit `'0' + u` of `appendInt` in package `time`. -/
def utod (u : Nat) : Char := Char.ofNat (48 + u)

/-- The function `appendInt` of package `time`: the decimal writing of `x`,
with a sign when negative, padded with zeros to `width` digits; the fields of
two and of four digits have their own branch. -/
def appendInt (x : Int) (width : Nat) : String :=
  let u := x.natAbs
  let sign := if x < 0 then "-" else ""
  if width = 2 ∧ u < 100 then sign ++ String.mk [utod (u / 10), utod (u % 10)]
  else if width = 4 ∧ u < 10000 then
    sign ++ String.mk [utod (u / 1000), utod (u / 100 % 10), utod (u / 10 % 10), utod (u % 10)]
  else sign ++ "".pushn (utod 0) (width - (toString u).length) ++ toString u

/-- The layout `"2006-01-02"` applied to a date: the year on four digits, a
dash, the month on two digits, a dash, the day on two digits. -/
def formatDate (date : Int × Int × Int) : String :=
  appendInt date.1 4 ++ "-" ++ appendInt date.2.1 2 ++ "-" ++ appendInt date.2.2 2

/-- The day number of an instant in the local zone: the instant is moved by
the offset of `time.Local` and cut into days of 86400 seconds. -/
def localDay (L : Libs) (t : Int) : Int := (t + L.localOffset t) / 86400

/-- The expression `t.In(time.Local).Format("2006-01-02")`. -/
def formatLocalDate (L : Libs) (t : Int) : String :=
  formatDate (civilDate (localDay L t))

/-- One `table.Row` of `updateTable`. -/
def tableRow (L : Libs) (f : Fork) : List String :=
  [f.NameWithOwner, Itoa f.StargazerCount, Itoa f.AheadBy, Itoa f.BehindBy,
    formatLocalDate L f.UpdatedAt, Itoa f.ForkCount]

/-- The rows built by the loop of `updateTable`: from `var rows []table.Row`,
one `append` per fork of the range loop. -/
def tableRows (L : Libs) (forks : List Fork) : List (List String) :=
  forks.foldl (fun rows f => rows ++ [tableRow L f]) []

/-- The method `updateTable`. -/
def updateTable {L : Libs} (m : model L) : model L :=
  { m with table := L.tableNew (tableRows L m.forks) }

/-- The method `loadCachedPage`. -/
def loadCachedPage {L : Libs} (m : model L) : model L :=
  match m.pages m.page with
  | some forks => updateTable { m with forks := forks }
  | none => m

/-- The method `clearModel`. -/
def clearModel {L : Libs} (m : model L) : model L :=
  { m with forks := [], pages := emptyPages, lastPage := -1 }

/-- The method `gotoNextPage`.  The sum `m.page + 1` is exact: it is the sum
that Go computes when `m.page` is below the largest `int`. -/
def gotoNextPage {L : Libs} (m : model L) : model L × Cmd :=
  match m.pages (m.page + 1) with
  | some _ =>
    let m1 := loadCachedPage { m with page := m.page + 1 }
    ({ m1 with table := L.GotoTop m1.table }, Cmd.nil)
  | none =>
    let m1 := { m with loading := true }
    (m1, Cmd.Batch (Cmd.lib (L.Tick m1.spinner))
      (fetchForks m1.owner m1.name m1.headRef (m1.page + 1) m1.sortBy m1.endCursor))

/-- The method `gotoPreviousPage`. -/
def gotoPreviousPage {L : Libs} (m : model L) : model L × Cmd :=
  (loadCachedPage { m with page := m.page - 1 }, Cmd.nil)

/-- The method `Init`. -/
def Init {L : Libs} (m : model L) : Cmd :=
  Cmd.Batch (Cmd.lib (L.Tick m.spinner))
    (fetchForks m.owner m.name m.headRef m.page m.sortBy m.endCursor)

/-- A run-time fault of `Update`. -/
inductive Fault where
  | indexOutOfRange (index : Int) (len : Nat)
deriving DecidableEq, Repr

/-- What one call of `Update` gives: the model, the returned command and the
URL handed to `openBrowser`, if any. -/
structure Step (L : Libs) where
  m : model L
  cmd : Cmd
  opened : Option String

/-- The end of `Update`, reached when no case returned:
`m.table, cmd = m.table.Update(msg); return m, cmd`. -/
def tableFallback {L : Libs} (m : model L) (msg : Msg) : Step L :=
  let r := L.tableUpdate m.table msg
  ⟨{ m with table := r.1 }, Cmd.ofLib r.2, none⟩

/-- The index expression `m.forks[i]`. -/
def forkAt (forks : List Fork) (i : Int) : Except Fault Fork :=
  if 0 ≤ i then
    match forks.get? i.toNat with
    | some f => Except.ok f
    | none => Except.error (Fault.indexOutOfRange i forks.length)
  else Except.error (Fault.indexOutOfRange i forks.length)

/-- The case `tea.KeyMsg` of `Update`, on `msg.String()`. -/
def updateKey {L : Libs} (m : model L) (s : String) : Except Fault (Step L) :=
  if s = "down" ∨ s = "j" then
    if L.Cursor m.table = L.Height m.table - 1 ∧ m.loading = false ∧ m.endCursor ≠ none
        ∧ m.lastPage ≠ m.page then
      let r := gotoNextPage m
      Except.ok ⟨r.1, r.2, none⟩
    else Except.ok (tableFallback m (Msg.KeyMsg s))
  else if s = "up" ∨ s = "k" then
    if L.Cursor m.table = 0 ∧ 0 < m.page then
      let m1 := (gotoPreviousPage m).1
      Except.ok ⟨{ m1 with table := L.GotoBottom m1.table }, Cmd.nil, none⟩
    else Except.ok (tableFallback m (Msg.KeyMsg s))
  else if s = "left" ∨ s = "h" then
    if 0 < m.page ∧ m.loading = false then
      let r := gotoPreviousPage m
      Except.ok ⟨r.1, r.2, none⟩
    else Except.ok (tableFallback m (Msg.KeyMsg s))
  else if s = "right" ∨ s = "l" then
    if m.loading = false ∧ m.endCursor ≠ none ∧ m.lastPage ≠ m.page then
      let r := gotoNextPage m
      Except.ok ⟨r.1, r.2, none⟩
    else Except.ok (tableFallback m (Msg.KeyMsg s))
  else if s = "s" then
    if m.loading = false then
      let m1 := clearModel { m with loading := true, sortBy := "STARGAZERS" }
      Except.ok ⟨m1, Cmd.Batch (Cmd.lib (L.Tick m1.spinner))
        (fetchForks m1.owner m1.name m1.headRef 0 m1.sortBy none), none⟩
    else Except.ok (tableFallback m (Msg.KeyMsg s))
  else if s = "u" then
    if m.loading = false then
      let m1 := clearModel { m with loading := true, sortBy := "UPDATED_AT" }
      Except.ok ⟨m1, Cmd.Batch (Cmd.lib (L.Tick m1.spinner))
        (fetchForks m1.owner m1.name m1.headRef 0 m1.sortBy none), none⟩
    else Except.ok (tableFallback m (Msg.KeyMsg s))
  else if s = "enter" then
    match forkAt m.forks (L.Cursor m.table) with
    | Except.ok f => Except.ok ⟨m, Cmd.nil, some f.Url⟩
    | Except.error e => Except.error e
  else if s = "q" ∨ s = "ctrl+c" then
    Except.ok ⟨m, Cmd.Quit, none⟩
  else Except.ok (tableFallback m (Msg.KeyMsg s))

/-- The case `forksLoadedMsg` of `Update`. -/
def updateLoaded {L : Libs} (m : model L) (msg : forksLoadedMsg) : Step L :=
  let m1 : model L :=
    { m with
      loading := false
      forks := msg.forks
      totalCount := msg.totalCount
      pages := putPage m.pages msg.page msg.forks
      page := msg.page
      endCursor := msg.endCursor }
  let m2 : model L := if msg.hasNext = false then { m1 with lastPage := msg.page } else m1
  ⟨updateTable m2, Cmd.nil, none⟩

/-- The method `Update`. -/
def Update {L : Libs} (m : model L) (msg : Msg) : Except Fault (Step L) :=
  match msg with
  | Msg.KeyMsg s => updateKey m s
  | Msg.forksLoaded fl => Except.ok (updateLoaded m fl)
  | Msg.TickMsg t =>
    let r := L.spinnerUpdate m.spinner (Msg.TickMsg t)
    Except.ok ⟨{ m with spinner := r.1 }, Cmd.ofLib r.2, none⟩
  | Msg.other t => Except.ok (tableFallback m (Msg.other t))

/-- The model that `main` hands to `tea.NewProgram`. -/
def initialModel (L : Libs) (owner name headRef : String) : model L :=
  { forks := []
    pages := emptyPages
    page := 0
    sortBy := "UPDATED_AT"
    totalCount := 0
    loading := true
    spinner := L.spinnerNew
    table := L.initialTable
    owner := owner
    name := name
    headRef := headRef
    endCursor := none
    lastPage := -1 }

/-! ## The event loop

The bubbletea runtime calls `Update` once per message, then starts the returned
command.  A run keeps, next to the model, the fetches that were started and
whose `forksLoadedMsg` has not come back yet.  The closure of `fetchForks`
answers with `page` equal to the page index it was called with; the other
fields of its message come from the remote service.  A run goes on after
`tea.Quit` here, which only adds states. -/

/-- The state of a run: the model and the fetches started and not yet answered. -/
structure Sys (L : Libs) where
  m : model L
  pending : List FetchReq

/-- Take the first outstanding fetch for page `p` out of the list. -/
def answer : List FetchReq → Int → Option (List FetchReq)
  | [], _ => none
  | r :: rs, p => if r.page = p then some rs else (answer rs p).map (fun l => r :: l)

/-- The state at the start of `prog.Run()`: the model of `main`, and the command of `Init` started. -/
def Sys.init (L : Libs) (owner name headRef : String) : Sys L :=
  ⟨initialModel L owner name headRef, (Init (initialModel L owner name headRef)).fetches⟩

/-- One turn of the event loop.  A `forksLoadedMsg` is delivered only as the
answer of an outstanding fetch for its page; a fault of `Update` ends the run. -/
def Sys.step {L : Libs} (s : Sys L) (msg : Msg) : Option (Sys L) :=
  match msg with
  | Msg.forksLoaded fl =>
    match answer s.pending fl.page with
    | none => none
    | some rest =>
      match Update s.m msg with
      | Except.ok st => some ⟨st.m, rest ++ st.cmd.fetches⟩
      | Except.error _ => none
  | _ =>
    match Update s.m msg with
    | Except.ok st => some ⟨st.m, s.pending ++ st.cmd.fetches⟩
    | Except.error _ => none

/-- A run of the event loop over a list of messages. -/
def Sys.run {L : Libs} (s : Sys L) : List Msg → Option (Sys L)
  | [] => some s
  | e :: es =>
    match s.step e with
    | some s1 => s1.run es
    | none => none

/-! ## A concrete widget set

Used to evaluate the program on concrete inputs. -/

/-- A table that keeps its rows, a cursor and a height. -/
structure PlainTable where
  rows : List (List String)
  cursor : Int
  height : Int
deriving DecidableEq, Repr

/-- The key handling of the plain table: up and k move the cursor one row up,
down and j one row down, within the rows. -/
def PlainTable.update (t : PlainTable) (msg : Msg) : PlainTable × Option Nat :=
  match msg with
  | Msg.KeyMsg s =>
    if s = "up" ∨ s = "k" then ({ t with cursor := max (t.cursor - 1) 0 }, none)
    else if s = "down" ∨ s = "j" then
      ({ t with cursor := max (min (t.cursor + 1) (t.rows.length - 1)) 0 }, none)
    else (t, none)
  | _ => (t, none)

/-- A concrete widget set: a new table has its cursor on row 0, as the bubbles
table has; the spinner counts its frames; the local zone is UTC. -/
def plainLibs : Libs where
  Table := PlainTable
  Spinner := Nat
  initialTable := ⟨[], 0, 20⟩
  tableNew := fun rows => ⟨rows, 0, rows.length + 1⟩
  Cursor := fun t => t.cursor
  Height := fun t => t.height
  GotoTop := fun t => { t with cursor := 0 }
  GotoBottom := fun t => { t with cursor := max (t.rows.length - 1) 0 }
  tableUpdate := PlainTable.update
  spinnerNew := 0
  Tick := fun _ => 0
  spinnerUpdate := fun sp _ => (sp + 1, some 0)
  localOffset := fun _ => 0

/-- A fork used in the concrete runs. -/
def forkA : Fork := ⟨"alice/repo", 5, 1, 1700000000, "https://github.com/alice/repo", 2, 0⟩

/-- A second fork used in the concrete runs. -/
def forkB : Fork := ⟨"bob/repo", 3, 0, 1600000000, "https://github.com/bob/repo", 0, 7⟩

/-- The start of a concrete session on the repository `o/r`. -/
def session : Sys plainLibs := Sys.init plainLibs "o" "r" "o:main"

/-- The first page arrives with more pages to come, the user asks for the next
page, and the second page arrives with more pages to come. -/
def twoPages : List Msg :=
  [Msg.forksLoaded ⟨[forkA], 0, 12, some "c0", true⟩, Msg.KeyMsg "right",
    Msg.forksLoaded ⟨[forkB], 1, 12, some "c1", true⟩]

/-- The model after `twoPages`: idle on page 1, pages 0 and 1 cached. -/
def idleOnPageOne : model plainLibs :=
  { forks := [forkB]
    pages := putPage (putPage emptyPages 0 [forkA]) 1 [forkB]
    page := 1
    sortBy := "UPDATED_AT"
    totalCount := 12
    loading := false
    spinner := (0 : Nat)
    table := (⟨tableRows plainLibs [forkB], 0, 2⟩ : PlainTable)
    owner := "o"
    name := "r"
    headRef := "o:main"
    endCursor := some "c1"
    lastPage := -1 }

/-- The model after `twoPages` and the key right: the fetch of page 2 is
outstanding, the page index is still 1 and the table of page 1 has its cursor
on row 0. -/
def loadingPageTwo : model plainLibs := { idleOnPageOne with loading := true }

/-- A completion for page 5, which no fetch asked for. -/
def strayCompletion : forksLoadedMsg := ⟨[forkA], 5, 99, none, false⟩

/-- The first page arrives with more pages to come, the user asks for the next
page, the second page arrives empty, as the last page and without a cursor,
and the user goes back. -/
def secondPageNoCursor : List Msg :=
  [Msg.forksLoaded ⟨[forkA], 0, 12, some "c0", true⟩, Msg.KeyMsg "right",
    Msg.forksLoaded ⟨[], 1, 12, none, false⟩, Msg.KeyMsg "left"]

/-- The model after `secondPageNoCursor`: idle on page 0, pages 0 and 1
cached, page 1 known as the last page, no cursor. -/
def cachedNoCursor : model plainLibs :=
  { forks := [forkA]
    pages := putPage (putPage emptyPages 0 [forkA]) 1 []
    page := 0
    sortBy := "UPDATED_AT"
    totalCount := 12
    loading := false
    spinner := (0 : Nat)
    table := (⟨tableRows plainLibs [forkA], 0, 2⟩ : PlainTable)
    owner := "o"
    name := "r"
    headRef := "o:main"
    endCursor := none
    lastPage := 1 }

/-- The model after `twoPages` and the key left: idle on page 0, pages 0 and 1
cached, the cursor of page 1 held. -/
def backOnPageZero : model plainLibs :=
  { idleOnPageOne with
    page := 0
    forks := [forkA]
    table := (⟨tableRows plainLibs [forkA], 0, 2⟩ : PlainTable) }

/-- The first page arrives with more pages to come and without a cursor. -/
def firstPageNoCursor : List Msg :=
  [Msg.forksLoaded ⟨[forkA], 0, 12, none, true⟩]

/-- The model after `firstPageNoCursor`: idle on page 0, page 1 not cached,
no last page known, no cursor. -/
def idleNoCursor : model plainLibs :=
  { forks := [forkA]
    pages := putPage emptyPages 0 [forkA]
    page := 0
    sortBy := "UPDATED_AT"
    totalCount := 12
    loading := false
    spinner := (0 : Nat)
    table := (⟨tableRows plainLibs [forkA], 0, 2⟩ : PlainTable)
    owner := "o"
    name := "r"
    headRef := "o:main"
    endCursor := none
    lastPage := -1 }

/-- The invariant of a run, with `n` the number of cached pages: the keys of
pages are 0, ..., n-1; once a page is cached the current page is cached and
shown; an idle model has no fetch outstanding; an outstanding fetch is the
only one, asks for page `n` and goes with loading = true and no known last
page; a known last page is the highest cached page. -/
structure RunInv {L : Libs} (s : Sys L) (n : Int) : Prop where
  count : 0 ≤ n
  keys : ∀ i, s.m.pages i ≠ none ↔ (0 ≤ i ∧ i < n)
  pageNonneg : 0 ≤ s.m.page
  current : 0 < n → s.m.pages s.m.page = some s.m.forks
  idle : s.m.loading = false → s.pending = [] ∧ 0 < n
  pend : ∀ r ∈ s.pending,
    s.pending = [r] ∧ r.page = n ∧ s.m.loading = true ∧ s.m.lastPage = -1
  last : s.m.lastPage = -1 ∨ (s.m.lastPage = n - 1 ∧ 0 < n)

/-- The first page arrives with more pages to come, the user asks for the next
page, and the second page arrives as the last one. -/
def lastPageRun : List Msg :=
  [Msg.forksLoaded ⟨[forkA], 0, 2, some "c0", true⟩, Msg.KeyMsg "right",
    Msg.forksLoaded ⟨[forkB], 1, 2, some "c1", false⟩]

/-! ## Startup, the sort field and the fetch itself

The queries go through `api.NewGraphQLClient` and `client.Query`, which are
libraries: what they return is an input here.  An error made by a library is a
text; a library cannot return the sentinel `ErrNoForks`, which is a variable
of `main.go`, so `errors.Is(err, ErrNoForks)` is equality with the sentinel. -/

/-- A Go `error` as `main.go` tells them apart: the sentinel `ErrNoForks` or an
error made by a library. -/
inductive GoError where
  | ErrNoForks
  | lib (text : String)
deriving DecidableEq, Repr

/-- The type `graphql.RepositoryOrderField` with the five constants that
`sortMap` uses. -/
inductive RepositoryOrderField where
  | CreatedAt
  | UpdatedAt
  | PushedAt
  | Name
  | Stargazers
deriving DecidableEq, Repr

/-- The value of each constant of `graphql.RepositoryOrderField` on the wire. -/
def RepositoryOrderField.wire : RepositoryOrderField → String
  | RepositoryOrderField.CreatedAt => "CREATED_AT"
  | RepositoryOrderField.UpdatedAt => "UPDATED_AT"
  | RepositoryOrderField.PushedAt => "PUSHED_AT"
  | RepositoryOrderField.Name => "NAME"
  | RepositoryOrderField.Stargazers => "STARGAZERS"

/-- The map `sortMap`, as the list of its entries. -/
def sortMap : List (String × RepositoryOrderField) :=
  [("CREATED_AT", RepositoryOrderField.CreatedAt),
    ("UPDATED_AT", RepositoryOrderField.UpdatedAt),
    ("PUSHED_AT", RepositoryOrderField.PushedAt),
    ("NAME", RepositoryOrderField.Name),
    ("STARGAZERS", RepositoryOrderField.Stargazers)]

/-- The function `toRepositoryOrderField`. -/
def toRepositoryOrderField (sortBy : String) : RepositoryOrderField :=
  match sortMap.lookup sortBy with
  | some val => val
  | none => RepositoryOrderField.UpdatedAt

/-- The struct `Compare` of a node of the query `Forks`. -/
structure Compare where
  AheadBy : Int
  BehindBy : Int
deriving DecidableEq, Repr

/-- The struct `DefaultBranchRef` of a node of the query `Forks`. -/
structure BranchRef where
  Name : String
  Compare : Compare
deriving DecidableEq, Repr

/-- One element of `query.Repository.Forks.Nodes`. -/
structure Node where
  NameWithOwner : String
  StargazerCount : Int
  ForkCount : Int
  UpdatedAt : Int
  Url : String
  DefaultBranchRef : BranchRef
deriving DecidableEq, Repr

/-- The struct `PageInfo` of the query `Forks`. -/
structure PageInfo where
  HasNextPage : Bool
  EndCursor : Option String
deriving DecidableEq, Repr

/-- The struct `query.Repository.Forks` that `client.Query` fills. -/
structure ForksResult where
  Nodes : List Node
  PageInfo : PageInfo
  TotalCount : Int
deriving DecidableEq, Repr

/-- The map `variables` of the query `Forks`. -/
structure ForksVariables where
  owner : String
  name : String
  field : RepositoryOrderField
  headRef : String
  endCursor : Option String
deriving DecidableEq, Repr

/-- The struct `query.Repository` of the query `DefaultBranch`. -/
structure DefaultBranchResult where
  ForkCount : Int
  Name : String
deriving DecidableEq, Repr

/-- What the outside gives to the program: the arguments left by
`pflag.Parse`, `repository.Parse`, `repository.Current`, the error of
`api.NewGraphQLClient` if any, and the answers of `client.Query` to the
queries `DefaultBranch` and `Forks`. -/
structure World where
  args : List String
  parse : String → Except String (String × String)
  current : Except String (String × String)
  newClient : Option String
  queryDefaultBranch : String → String → Except String DefaultBranchResult
  queryForks : ForksVariables → Except String ForksResult

/-- The `Fork` literal of the loop of `fetchForks`. -/
def forkOfNode (node : Node) : Fork :=
  { NameWithOwner := node.NameWithOwner
    StargazerCount := node.StargazerCount
    ForkCount := node.ForkCount
    UpdatedAt := node.UpdatedAt
    Url := node.Url
    BehindBy := node.DefaultBranchRef.Compare.AheadBy
    AheadBy := node.DefaultBranchRef.Compare.BehindBy }

/-- The loop of `fetchForks`: from `forks := []Fork{}`, one `append` per node. -/
def forksOfNodes (nodes : List Node) : List Fork :=
  nodes.foldl (fun forks node => forks ++ [forkOfNode node]) []

/-- The closure returned by `fetchForks`, run by the runtime: the message it
returns, or the error that `log.Fatal` ends the process with. -/
def runFetch (w : World) (r : FetchReq) : Except GoError forksLoadedMsg :=
  match w.newClient with
  | some e => Except.error (GoError.lib e)
  | none =>
    match w.queryForks ⟨r.owner, r.name, toRepositoryOrderField r.sortBy, r.headRef,
        r.endCursor⟩ with
    | Except.error e => Except.error (GoError.lib e)
    | Except.ok q =>
      Except.ok
        { forks := forksOfNodes q.Nodes
          page := r.page
          totalCount := q.TotalCount
          endCursor := q.PageInfo.EndCursor
          hasNext := q.PageInfo.HasNextPage }

/-- The function `getDefaultBranch`: the returned string and error. -/
def getDefaultBranch (w : World) (owner name : String) : String × Option GoError :=
  match w.newClient with
  | some e => ("", some (GoError.lib e))
  | none =>
    match w.queryDefaultBranch owner name with
    | Except.error e => ("", some (GoError.lib e))
    | Except.ok q =>
      if q.ForkCount = 0 then ("", some GoError.ErrNoForks) else (q.Name, none)

/-- How `main` ends before the interactive loop, or the model it starts the
loop with. -/
inductive Started (L : Libs) where
  | exit (status : Nat) (printed : String)
  | loop (m : model L)

/-- The text of an error, as `%v` prints it. -/
def GoError.text : GoError → String
  | GoError.ErrNoForks => "no forks found"
  | GoError.lib t => t

/-- The repository that `main` works on: the first argument parsed, or the
current repository. -/
def resolveRepository (w : World) : Except String (String × String) :=
  match w.args with
  | a :: _ => w.parse a
  | [] => w.current

/-- The function `main`, up to the start of `prog.Run()`. -/
def main (L : Libs) (w : World) : Started L :=
  match resolveRepository w with
  | Except.error e => Started.exit 1 ("Error: " ++ e ++ "\n")
  | Except.ok (owner, name) =>
    match getDefaultBranch w owner name with
    | (_, some err) =>
      if err = GoError.ErrNoForks then
        Started.exit 0 "No forks found for this repository. Exiting.\n"
      else Started.exit 1 ("Error: " ++ err.text ++ "\n")
    | (defaultBranch, none) =>
      Started.loop (initialModel L owner name (owner ++ ":" ++ defaultBranch))

/-- The first page arrives and the user asks for the order by stars. -/
def sortAfterFirstPage : List Msg :=
  [Msg.forksLoaded ⟨[forkA], 0, 12, some "c0", true⟩, Msg.KeyMsg "s"]

/-- A world in which the repository `o/r` has seven forks and the default
branch `main`, and the query `Forks` answers with one node. -/
def sevenForks : World :=
  { args := ["o/r"]
    parse := fun _ => Except.ok ("o", "r")
    current := Except.error "not a repository"
    newClient := none
    queryDefaultBranch := fun _ _ => Except.ok ⟨7, "main"⟩
    queryForks := fun _ =>
      Except.ok ⟨[⟨"alice/repo", 5, 1, 1700000000, "https://github.com/alice/repo",
        ⟨"main", ⟨0, 2⟩⟩⟩], ⟨true, some "c0"⟩, 7⟩ }

/-- A world in which the repository `o/r` has no fork. -/
def noForks : World :=
  { sevenForks with queryDefaultBranch := fun _ _ => Except.ok ⟨0, "main"⟩ }

/-! ## A run with its history

To speak of the fetches that a run has started, the run is followed with a
log: each started fetch is written down with the completion that was the most
recent one at that moment (the fetch that completion answered, and its
message).  The log adds nothing to the run itself. -/

/-- The first outstanding fetch for page `p`: the one that `answer` takes out. -/
def answered : List FetchReq → Int → Option FetchReq
  | [], _ => none
  | r :: rs, p => if r.page = p then some r else answered rs p

/-- The fetches that `Update` starts on a message. -/
def sentBy {L : Libs} (m : model L) (msg : Msg) : List FetchReq :=
  match Update m msg with
  | Except.ok st => st.cmd.fetches
  | Except.error _ => []

/-- The most recent completion after a message: a `forksLoadedMsg` that answers
an outstanding fetch becomes the most recent one. -/
def lastAfter (last : Option (FetchReq × forksLoadedMsg)) (pending : List FetchReq)
    (msg : Msg) : Option (FetchReq × forksLoadedMsg) :=
  match msg with
  | Msg.forksLoaded fl =>
    match answered pending fl.page with
    | some r => some (r, fl)
    | none => last
  | _ => last

/-- A started fetch, with the most recent completion at the moment it was
started. -/
structure Sent where
  req : FetchReq
  last : Option (FetchReq × forksLoadedMsg)

/-- A run with its history: the state of the run, the most recent completion,
and the log of the started fetches, oldest first. -/
structure Hist (L : Libs) where
  sys : Sys L
  last : Option (FetchReq × forksLoadedMsg)
  log : List Sent

/-- The start of a run with its history: the fetch of `Init` is in the log. -/
def Hist.init (L : Libs) (owner name headRef : String) : Hist L :=
  ⟨Sys.init L owner name headRef, none,
    (Sys.init L owner name headRef).pending.map (fun r => ⟨r, none⟩)⟩

/-- One turn of the event loop, with the history. -/
def Hist.step {L : Libs} (h : Hist L) (msg : Msg) : Option (Hist L) :=
  match h.sys.step msg with
  | none => none
  | some s1 =>
    some ⟨s1, lastAfter h.last h.sys.pending msg,
      h.log ++ (sentBy h.sys.m msg).map (fun r => ⟨r, h.last⟩)⟩

/-- A run of the event loop, with the history. -/
def Hist.run {L : Libs} (h : Hist L) : List Msg → Option (Hist L)
  | [] => some h
  | e :: es =>
    match h.step e with
    | some h1 => h1.run es
    | none => none

/-- A started fetch is chained when it asks for page 0 without a cursor, or
asks for the page after the one the most recent completion was for, with the
cursor of that completion and the sort field of the fetch it answered. -/
def Sent.chained (e : Sent) : Prop :=
  (e.req.page = 0 ∧ e.req.endCursor = none) ∨
  ∃ r0 fl, e.last = some (r0, fl) ∧ fl.page = r0.page ∧ e.req.page = r0.page + 1 ∧
    e.req.endCursor = fl.endCursor ∧ r0.sortBy = e.req.sortBy

/-- The invariant of a run with its history, with `n` the number of cached
pages: the invariant of the run; once a page is cached, the most recent
completion was for page n-1, the model holds its cursor, and the fetch it
answered had the sort field of the model; an outstanding fetch has the sort
field of the model; every fetch of the log is chained. -/
structure HistInv {L : Libs} (h : Hist L) (n : Int) : Prop where
  base : RunInv h.sys n
  chain : 0 < n → ∃ r0 fl, h.last = some (r0, fl) ∧ r0.page = n - 1 ∧ fl.page = n - 1 ∧
    fl.endCursor = h.sys.m.endCursor ∧ r0.sortBy = h.sys.m.sortBy
  pendSort : ∀ r ∈ h.sys.pending, r.sortBy = h.sys.m.sortBy
  logOk : ∀ e ∈ h.log, e.chained

/-- The concrete session, with its history. -/
def sessionHist : Hist plainLibs := Hist.init plainLibs "o" "r" "o:main"

/-- Two pages arrive, the user sorts by stars, the first page of that order
arrives and the user asks for the next page. -/
def sortThenNext : List Msg :=
  twoPages ++ [Msg.KeyMsg "s", Msg.forksLoaded ⟨[forkB], 0, 12, some "s0", true⟩,
    Msg.KeyMsg "right"]

/-- The concrete widget set on a machine whose local zone is nine hours east
of UTC. -/
def tokyoLibs : Libs := { plainLibs with localOffset := fun _ => 32400 }

/-- The largest value of a Go `int` on 64 bits. -/
def maxInt : Int := 9223372036854775807

/-- The smallest value of a Go `int` on 64 bits. -/
def minInt : Int := -9223372036854775808

/-- The value that Go gives to an `int` expression whose exact value is `x`:
the number of the range of `int` that differs from `x` by a multiple of 2^64. -/
def wrapInt (x : Int) : Int := (x - minInt) % 18446744073709551616 + minInt

theorem session_twoPages : session.run twoPages = some ⟨idleOnPageOne, []⟩ := by
  rfl

/-! ## What `Update` does on each key -/

theorem updateKey_sort_s {L : Libs} (m : model L) (hl : m.loading = false) :
    updateKey m "s" = Except.ok
      ⟨clearModel { m with loading := true, sortBy := "STARGAZERS" },
        Cmd.Batch (Cmd.lib (L.Tick m.spinner))
          (fetchForks m.owner m.name m.headRef 0 "STARGAZERS" none), none⟩ := by
  simp [updateKey, hl, clearModel]

theorem updateKey_sort_u {L : Libs} (m : model L) (hl : m.loading = false) :
    updateKey m "u" = Except.ok
      ⟨clearModel { m with loading := true, sortBy := "UPDATED_AT" },
        Cmd.Batch (Cmd.lib (L.Tick m.spinner))
          (fetchForks m.owner m.name m.headRef 0 "UPDATED_AT" none), none⟩ := by
  simp [updateKey, hl, clearModel]

/-- While loading, the keys other than up and k are handed to the table and
change no pagination field. -/
theorem updateKey_loading {L : Libs} (m : model L) (k : String) (hl : m.loading = true)
    (hk : k = "down" ∨ k = "j" ∨ k = "left" ∨ k = "h" ∨ k = "right" ∨ k = "l"
      ∨ k = "s" ∨ k = "u") :
    updateKey m k = Except.ok (tableFallback m (Msg.KeyMsg k)) := by
  rcases hk with h | h | h | h | h | h | h | h <;> subst h <;> simp [updateKey, hl]

/-- With the table cursor on row 0 and a page index above 0, the keys up and k
call `gotoPreviousPage`, whatever the value of loading. -/
theorem updateKey_up_top {L : Libs} (m : model L) (k : String) (hk : k = "up" ∨ k = "k")
    (hc : L.Cursor m.table = 0) (hp : 0 < m.page) :
    updateKey m k = Except.ok
      ⟨{ (gotoPreviousPage m).1 with table := L.GotoBottom (gotoPreviousPage m).1.table },
        Cmd.nil, none⟩ := by
  rcases hk with h | h <;> subst h <;> simp [updateKey, hc, hp]

/-- The keys right and l call `gotoNextPage` when no fetch is outstanding, a
cursor is held and the page is not the known last page. -/
theorem updateKey_right_open {L : Libs} (m : model L) (k : String)
    (hk : k = "right" ∨ k = "l") (hl : m.loading = false) (hc : m.endCursor ≠ none)
    (hp : m.lastPage ≠ m.page) :
    updateKey m k = Except.ok ⟨(gotoNextPage m).1, (gotoNextPage m).2, none⟩ := by
  rcases hk with h | h <;> subst h <;> simp [updateKey, hl, hc, hp]

/-- The keys right and l are handed to the table when a fetch is outstanding,
or no cursor is held, or the page is the known last page. -/
theorem updateKey_right_blocked {L : Libs} (m : model L) (k : String)
    (hk : k = "right" ∨ k = "l")
    (hb : ¬ (m.loading = false ∧ m.endCursor ≠ none ∧ m.lastPage ≠ m.page)) :
    updateKey m k = Except.ok (tableFallback m (Msg.KeyMsg k)) := by
  rcases hk with h | h <;> subst h <;> simp only [updateKey] <;> simp [hb]

/-- The keys left and h call `gotoPreviousPage` when the page index is above 0
and no fetch is outstanding. -/
theorem updateKey_left_open {L : Libs} (m : model L) (k : String)
    (hk : k = "left" ∨ k = "h") (hp : 0 < m.page) (hl : m.loading = false) :
    updateKey m k = Except.ok ⟨(gotoPreviousPage m).1, (gotoPreviousPage m).2, none⟩ := by
  rcases hk with h | h <;> subst h <;> simp [updateKey, hl, hp]

/-- The keys left and h are handed to the table on page 0 or while a fetch is
outstanding. -/
theorem updateKey_left_blocked {L : Libs} (m : model L) (k : String)
    (hk : k = "left" ∨ k = "h") (hb : ¬ (0 < m.page ∧ m.loading = false)) :
    updateKey m k = Except.ok (tableFallback m (Msg.KeyMsg k)) := by
  rcases hk with h | h <;> subst h <;> simp only [updateKey] <;> simp [hb]

/-- The method `gotoNextPage` on a cached next page. -/
theorem gotoNextPage_cached {L : Libs} (m : model L) (fs : List Fork)
    (h : m.pages (m.page + 1) = some fs) :
    gotoNextPage m =
      ({ m with page := m.page + 1, forks := fs,
                table := L.GotoTop (L.tableNew (tableRows L fs)) }, Cmd.nil) := by
  simp [gotoNextPage, loadCachedPage, updateTable, h]

/-- The method `gotoNextPage` on a next page that is not cached. -/
theorem gotoNextPage_miss {L : Libs} (m : model L) (h : m.pages (m.page + 1) = none) :
    gotoNextPage m =
      ({ m with loading := true }, Cmd.Batch (Cmd.lib (L.Tick m.spinner))
        (fetchForks m.owner m.name m.headRef (m.page + 1) m.sortBy m.endCursor)) := by
  simp [gotoNextPage, h]

/-- The method `gotoPreviousPage` on a cached previous page. -/
theorem gotoPreviousPage_cached {L : Libs} (m : model L) (fs : List Fork)
    (h : m.pages (m.page - 1) = some fs) :
    gotoPreviousPage m =
      ({ m with page := m.page - 1, forks := fs, table := L.tableNew (tableRows L fs) },
        Cmd.nil) := by
  simp [gotoPreviousPage, loadCachedPage, updateTable, h]

/-- A command handed back by a widget starts no fetch. -/
theorem Cmd.fetches_ofLib (o : Option Nat) : (Cmd.ofLib o).fetches = [] := by
  cases o <;> rfl

/-- The end of `Update` starts no fetch and changes no field but the table. -/
theorem tableFallback_fetches {L : Libs} (m : model L) (msg : Msg) :
    (tableFallback m msg).cmd.fetches = [] :=
  Cmd.fetches_ofLib _

/-- The branches of the key switch of `Update`. -/
theorem updateKey_cases {L : Libs} (m : model L) (k : String) :
    updateKey m k = Except.ok (tableFallback m (Msg.KeyMsg k)) ∨
    (m.loading = false ∧ m.endCursor ≠ none ∧ m.lastPage ≠ m.page ∧
      updateKey m k = Except.ok ⟨(gotoNextPage m).1, (gotoNextPage m).2, none⟩) ∨
    (0 < m.page ∧ updateKey m k = Except.ok
      ⟨{ (gotoPreviousPage m).1 with table := L.GotoBottom (gotoPreviousPage m).1.table },
        Cmd.nil, none⟩) ∨
    (0 < m.page ∧ m.loading = false ∧
      updateKey m k = Except.ok ⟨(gotoPreviousPage m).1, (gotoPreviousPage m).2, none⟩) ∨
    (m.loading = false ∧ k = "s" ∧ updateKey m k = Except.ok
      ⟨clearModel { m with loading := true, sortBy := "STARGAZERS" },
        Cmd.Batch (Cmd.lib (L.Tick m.spinner))
          (fetchForks m.owner m.name m.headRef 0 "STARGAZERS" none), none⟩) ∨
    (m.loading = false ∧ k = "u" ∧ updateKey m k = Except.ok
      ⟨clearModel { m with loading := true, sortBy := "UPDATED_AT" },
        Cmd.Batch (Cmd.lib (L.Tick m.spinner))
          (fetchForks m.owner m.name m.headRef 0 "UPDATED_AT" none), none⟩) ∨
    (k = "enter" ∧ ∃ e, updateKey m k = Except.error e) ∨
    (k = "enter" ∧ ∃ u, updateKey m k = Except.ok ⟨m, Cmd.nil, some u⟩) ∨
    updateKey m k = Except.ok ⟨m, Cmd.Quit, none⟩ := by
  by_cases h1 : k = "down" ∨ k = "j"
  · by_cases c : L.Cursor m.table = L.Height m.table - 1 ∧ m.loading = false
        ∧ m.endCursor ≠ none ∧ m.lastPage ≠ m.page
    · right; left
      exact ⟨c.2.1, c.2.2.1, c.2.2.2, by simp only [updateKey, if_pos h1, if_pos c]⟩
    · left
      simp only [updateKey, if_pos h1, if_neg c]
  by_cases h2 : k = "up" ∨ k = "k"
  · by_cases c : L.Cursor m.table = 0 ∧ 0 < m.page
    · right; right; left
      exact ⟨c.2, by simp only [updateKey, if_neg h1, if_pos h2, if_pos c]⟩
    · left
      simp only [updateKey, if_neg h1, if_pos h2, if_neg c]
  by_cases h3 : k = "left" ∨ k = "h"
  · by_cases c : 0 < m.page ∧ m.loading = false
    · right; right; right; left
      exact ⟨c.1, c.2, by simp only [updateKey, if_neg h1, if_neg h2, if_pos h3, if_pos c]⟩
    · left
      simp only [updateKey, if_neg h1, if_neg h2, if_pos h3, if_neg c]
  by_cases h4 : k = "right" ∨ k = "l"
  · by_cases c : m.loading = false ∧ m.endCursor ≠ none ∧ m.lastPage ≠ m.page
    · right; left
      exact ⟨c.1, c.2.1, c.2.2,
        by simp only [updateKey, if_neg h1, if_neg h2, if_neg h3, if_pos h4, if_pos c]⟩
    · left
      simp only [updateKey, if_neg h1, if_neg h2, if_neg h3, if_pos h4, if_neg c]
  by_cases h5 : k = "s"
  · by_cases c : m.loading = false
    · right; right; right; right; left
      subst h5
      exact ⟨c, rfl, updateKey_sort_s m c⟩
    · left
      simp only [updateKey, if_neg h1, if_neg h2, if_neg h3, if_neg h4, if_pos h5, if_neg c]
  by_cases h6 : k = "u"
  · by_cases c : m.loading = false
    · right; right; right; right; right; left
      subst h6
      exact ⟨c, rfl, updateKey_sort_u m c⟩
    · left
      simp only [updateKey, if_neg h1, if_neg h2, if_neg h3, if_neg h4, if_neg h5, if_pos h6,
        if_neg c]
  by_cases h7 : k = "enter"
  · cases hf : forkAt m.forks (L.Cursor m.table) with
    | error e =>
      right; right; right; right; right; right; left
      refine ⟨h7, e, ?_⟩
      simp only [updateKey, if_neg h1, if_neg h2, if_neg h3, if_neg h4, if_neg h5, if_neg h6,
        if_pos h7, hf]
    | ok f =>
      right; right; right; right; right; right; right; left
      refine ⟨h7, f.Url, ?_⟩
      simp only [updateKey, if_neg h1, if_neg h2, if_neg h3, if_neg h4, if_neg h5, if_neg h6,
        if_pos h7, hf]
  by_cases h8 : k = "q" ∨ k = "ctrl+c"
  · right; right; right; right; right; right; right; right
    simp only [updateKey, if_neg h1, if_neg h2, if_neg h3, if_neg h4, if_neg h5, if_neg h6,
      if_neg h7, if_pos h8]
  · left
    simp only [updateKey, if_neg h1, if_neg h2, if_neg h3, if_neg h4, if_neg h5, if_neg h6,
      if_neg h7, if_neg h8]

/-! ## The invariant of a run -/

/-- The method `loadCachedPage` changes forks and the table only. -/
theorem loadCachedPage_fields {L : Libs} (m : model L) :
    (loadCachedPage m).pages = m.pages ∧ (loadCachedPage m).page = m.page ∧
    (loadCachedPage m).loading = m.loading ∧ (loadCachedPage m).lastPage = m.lastPage ∧
    (∀ fs, m.pages m.page = some fs → (loadCachedPage m).forks = fs) := by
  unfold loadCachedPage
  cases h : m.pages m.page with
  | none => exact ⟨rfl, rfl, rfl, rfl, fun fs hfs => by simp at hfs⟩
  | some fs0 =>
    refine ⟨rfl, rfl, rfl, rfl, fun fs hfs => ?_⟩
    simp only [Option.some.injEq] at hfs
    simp [updateTable, hfs]

theorem step_key_ok {L : Libs} (s : Sys L) (k : String) (st : Step L)
    (hu : updateKey s.m k = Except.ok st) :
    s.step (Msg.KeyMsg k) = some ⟨st.m, s.pending ++ st.cmd.fetches⟩ := by
  simp [Sys.step, Update, hu]

theorem step_key_error {L : Libs} (s : Sys L) (k : String) (e : Fault)
    (hu : updateKey s.m k = Except.error e) :
    s.step (Msg.KeyMsg k) = none := by
  simp [Sys.step, Update, hu]

theorem answer_single (r : FetchReq) (p : Int) (rest : List FetchReq)
    (h : answer [r] p = some rest) : r.page = p ∧ rest = [] := by
  by_cases hp : r.page = p
  · simp [answer, hp] at h
    exact ⟨hp, h⟩
  · simp [answer, hp] at h

theorem RunInv.page_lt {L : Libs} {s : Sys L} {n : Int} (h : RunInv s n) (hn : 0 < n) :
    s.m.page < n :=
  ((h.keys s.m.page).1 (by rw [h.current hn]; simp)).2

/-- The invariant looks at pages, page, forks, loading, lastPage and the
outstanding fetches only. -/
theorem RunInv.frame {L : Libs} {s : Sys L} {n : Int} (h : RunInv s n) (m1 : model L)
    (h1 : m1.pages = s.m.pages) (h2 : m1.page = s.m.page) (h3 : m1.forks = s.m.forks)
    (h4 : m1.loading = s.m.loading) (h5 : m1.lastPage = s.m.lastPage) :
    RunInv ⟨m1, s.pending ++ []⟩ n := by
  obtain ⟨a, b, c, d, e, f, g⟩ := h
  constructor <;>
    first
    | assumption
    | (simp only [h1, h2, h3, h4, h5, List.append_nil]; assumption)

/-- A step back to a cached page keeps the invariant. -/
theorem RunInv.previous {L : Libs} {s : Sys L} {n : Int} (h : RunInv s n) (m1 : model L)
    (hp : 0 < s.m.page)
    (h1 : m1.pages = s.m.pages) (h2 : m1.page = s.m.page - 1)
    (h3 : ∀ fs, s.m.pages (s.m.page - 1) = some fs → m1.forks = fs)
    (h4 : m1.loading = s.m.loading) (h5 : m1.lastPage = s.m.lastPage) :
    RunInv ⟨m1, s.pending ++ []⟩ n := by
  have hcur : 0 < n → m1.pages m1.page = some m1.forks := by
    intro hn
    have hlt := h.page_lt hn
    have hne : s.m.pages (s.m.page - 1) ≠ none := (h.keys _).2 ⟨by omega, by omega⟩
    cases hq : s.m.pages (s.m.page - 1) with
    | none => exact absurd hq hne
    | some fs => rw [h1, h2, hq, h3 fs hq]
  obtain ⟨a, b, c, d, e, f, g⟩ := h
  constructor
  · exact a
  · simpa only [h1] using b
  · show 0 ≤ m1.page
    rw [h2]; omega
  · exact hcur
  · simpa only [h4, List.append_nil] using e
  · simpa only [h4, h5, List.append_nil] using f
  · simpa only [h5] using g

/-- The start of a run satisfies the invariant, with no page cached. -/
theorem RunInv.init (L : Libs) (owner name headRef : String) :
    RunInv (Sys.init L owner name headRef) 0 := by
  constructor
  · exact le_refl 0
  · intro i
    constructor
    · intro h; exact absurd rfl h
    · intro h; omega
  · exact le_refl 0
  · intro h; omega
  · intro h; simp [Sys.init, initialModel] at h
  · intro r hr
    simp only [Sys.init, Init, initialModel, Cmd.fetches, fetchForks, List.nil_append,
      List.mem_singleton] at hr
    subst hr
    exact ⟨rfl, rfl, rfl, rfl⟩
  · left; rfl

/-- A step forward from an idle model, to a cached page or by a fetch, keeps
the invariant. -/
theorem RunInv.next {L : Libs} {s : Sys L} {n : Int} (h : RunInv s n)
    (hl : s.m.loading = false) (hp : s.m.lastPage ≠ s.m.page) :
    RunInv ⟨(gotoNextPage s.m).1, s.pending ++ (gotoNextPage s.m).2.fetches⟩ n := by
  obtain ⟨hpend, hn⟩ := h.idle hl
  have hlt := h.page_lt hn
  have hnn := h.pageNonneg
  cases hq : s.m.pages (s.m.page + 1) with
  | some fs =>
    rw [gotoNextPage_cached s.m fs hq]
    constructor
    · exact h.count
    · exact h.keys
    · show 0 ≤ s.m.page + 1
      omega
    · intro _
      exact hq
    · intro _
      exact ⟨by simp [hpend, Cmd.fetches], hn⟩
    · intro r hr
      simp [hpend, Cmd.fetches] at hr
    · exact h.last
  | none =>
    rw [gotoNextPage_miss s.m hq]
    have heq : s.m.page + 1 = n := by
      by_contra hne
      exact (h.keys (s.m.page + 1)).2 ⟨by omega, by omega⟩ hq
    have hlast : s.m.lastPage = -1 := by
      rcases h.last with h1 | ⟨h1, _⟩
      · exact h1
      · exfalso
        apply hp
        omega
    constructor
    · exact h.count
    · exact h.keys
    · exact h.pageNonneg
    · exact h.current
    · intro hc
      simp at hc
    · intro r hr
      simp only [hpend, Cmd.fetches, fetchForks, List.nil_append, List.mem_singleton] at hr
      subst hr
      exact ⟨by simp [hpend, Cmd.fetches, fetchForks], heq, rfl, hlast⟩
    · exact h.last

/-- A sort key on an idle model keeps the invariant, with no page cached. -/
theorem RunInv.sort {L : Libs} {s : Sys L} {n : Int} (h : RunInv s n)
    (hl : s.m.loading = false) (sb : String) :
    RunInv ⟨clearModel { s.m with loading := true, sortBy := sb },
      s.pending ++ (Cmd.Batch (Cmd.lib (L.Tick s.m.spinner))
        (fetchForks s.m.owner s.m.name s.m.headRef 0 sb none)).fetches⟩ 0 := by
  obtain ⟨hpend, _⟩ := h.idle hl
  constructor
  · exact le_refl 0
  · intro i
    constructor
    · intro hne
      exact absurd rfl hne
    · intro hi
      omega
  · exact h.pageNonneg
  · intro hn
    omega
  · intro hc
    simp [clearModel] at hc
  · intro r hr
    simp only [hpend, Cmd.fetches, fetchForks, List.nil_append, List.mem_singleton] at hr
    subst hr
    exact ⟨by simp [hpend, Cmd.fetches, fetchForks], rfl, rfl, rfl⟩
  · left
    rfl

/-- The completion of the outstanding fetch keeps the invariant, with one more
page cached. -/
theorem RunInv.loaded {L : Libs} {s : Sys L} {n : Int} (h : RunInv s n)
    (fl : forksLoadedMsg) (hfl : fl.page = n) (hlast : s.m.lastPage = -1) :
    RunInv ⟨(updateLoaded s.m fl).m, [] ++ (updateLoaded s.m fl).cmd.fetches⟩ (n + 1) := by
  have hn := h.count
  have hpages : (updateLoaded s.m fl).m.pages = putPage s.m.pages n fl.forks := by
    cases hh : fl.hasNext <;> simp [updateLoaded, updateTable, hh, hfl]
  have hpage : (updateLoaded s.m fl).m.page = n := by
    cases hh : fl.hasNext <;> simp [updateLoaded, updateTable, hh, hfl]
  have hforks : (updateLoaded s.m fl).m.forks = fl.forks := by
    cases hh : fl.hasNext <;> simp [updateLoaded, updateTable, hh]
  have hloading : (updateLoaded s.m fl).m.loading = false := by
    cases hh : fl.hasNext <;> simp [updateLoaded, updateTable, hh]
  have hlp : (updateLoaded s.m fl).m.lastPage = -1 ∨ (updateLoaded s.m fl).m.lastPage = n := by
    cases hh : fl.hasNext <;> simp [updateLoaded, updateTable, hh, hfl, hlast]
  constructor
  · show 0 ≤ n + 1
    omega
  · intro i
    show (updateLoaded s.m fl).m.pages i ≠ none ↔ _
    rw [hpages]
    by_cases hi : i = n
    · simp [putPage, hi]
      omega
    · simp only [putPage, if_neg hi]
      rw [h.keys i]
      omega
  · show 0 ≤ (updateLoaded s.m fl).m.page
    rw [hpage]
    exact hn
  · intro _
    show (updateLoaded s.m fl).m.pages (updateLoaded s.m fl).m.page
      = some (updateLoaded s.m fl).m.forks
    rw [hpages, hpage, hforks]
    simp [putPage]
  · intro _
    exact ⟨rfl, by omega⟩
  · intro r hr
    exact absurd hr (List.not_mem_nil r)
  · show (updateLoaded s.m fl).m.lastPage = -1 ∨
      ((updateLoaded s.m fl).m.lastPage = n + 1 - 1 ∧ 0 < n + 1)
    rcases hlp with h1 | h1
    · left
      exact h1
    · right
      exact ⟨by omega, by omega⟩

/-- Every turn of the event loop keeps the invariant. -/
theorem RunInv.step {L : Libs} {s s1 : Sys L} {n : Int} (h : RunInv s n) (msg : Msg)
    (hs : s.step msg = some s1) : ∃ n1, RunInv s1 n1 := by
  cases msg with
  | KeyMsg k =>
    rcases updateKey_cases s.m k with hu | ⟨hl, _, hp, hu⟩ | ⟨hp, hu⟩ | ⟨hp, _, hu⟩
      | ⟨hl, _, hu⟩ | ⟨hl, _, hu⟩ | ⟨_, e, hu⟩ | ⟨_, u, hu⟩ | hu
    · rw [step_key_ok s k _ hu, Option.some.injEq] at hs
      subst hs
      rw [tableFallback_fetches]
      exact ⟨n, h.frame _ rfl rfl rfl rfl rfl⟩
    · rw [step_key_ok s k _ hu, Option.some.injEq] at hs
      subst hs
      exact ⟨n, h.next hl hp⟩
    · rw [step_key_ok s k _ hu, Option.some.injEq] at hs
      subst hs
      obtain ⟨a, b, c, d, e⟩ := loadCachedPage_fields { s.m with page := s.m.page - 1 }
      exact ⟨n, h.previous _ hp a b e c d⟩
    · rw [step_key_ok s k _ hu, Option.some.injEq] at hs
      subst hs
      obtain ⟨a, b, c, d, e⟩ := loadCachedPage_fields { s.m with page := s.m.page - 1 }
      exact ⟨n, h.previous _ hp a b e c d⟩
    · rw [step_key_ok s k _ hu, Option.some.injEq] at hs
      subst hs
      exact ⟨0, h.sort hl "STARGAZERS"⟩
    · rw [step_key_ok s k _ hu, Option.some.injEq] at hs
      subst hs
      exact ⟨0, h.sort hl "UPDATED_AT"⟩
    · rw [step_key_error s k e hu] at hs
      exact absurd hs (by simp)
    · rw [step_key_ok s k _ hu, Option.some.injEq] at hs
      subst hs
      exact ⟨n, h.frame _ rfl rfl rfl rfl rfl⟩
    · rw [step_key_ok s k _ hu, Option.some.injEq] at hs
      subst hs
      exact ⟨n, h.frame _ rfl rfl rfl rfl rfl⟩
  | forksLoaded fl =>
    cases hp : s.pending with
    | nil => simp [Sys.step, hp, answer] at hs
    | cons r rs =>
      obtain ⟨h1, h2, _, h4⟩ := h.pend r (by rw [hp]; exact List.mem_cons_self r rs)
      cases ha : answer s.pending fl.page with
      | none => simp [Sys.step, ha] at hs
      | some rest =>
        rw [h1] at ha
        obtain ⟨hpage, hrest⟩ := answer_single r fl.page rest ha
        have hs2 : s.step (Msg.forksLoaded fl)
            = some ⟨(updateLoaded s.m fl).m, [] ++ (updateLoaded s.m fl).cmd.fetches⟩ := by
          simp [Sys.step, Update, h1, answer, hpage]
        rw [hs2, Option.some.injEq] at hs
        subst hs
        exact ⟨n + 1, h.loaded fl (by omega) h4⟩
  | TickMsg t =>
    have hs2 : s.step (Msg.TickMsg t)
        = some ⟨{ s.m with spinner := (L.spinnerUpdate s.m.spinner (Msg.TickMsg t)).1 },
            s.pending ++ []⟩ := by
      simp [Sys.step, Update, Cmd.fetches_ofLib]
    rw [hs2, Option.some.injEq] at hs
    subst hs
    exact ⟨n, h.frame _ rfl rfl rfl rfl rfl⟩
  | other t =>
    have hs2 : s.step (Msg.other t)
        = some ⟨(tableFallback s.m (Msg.other t)).m, s.pending ++ []⟩ := by
      simp [Sys.step, Update, tableFallback_fetches]
    rw [hs2, Option.some.injEq] at hs
    subst hs
    exact ⟨n, h.frame _ rfl rfl rfl rfl rfl⟩

/-- Every state of a run satisfies the invariant. -/
theorem RunInv.run {L : Libs} (evs : List Msg) :
    ∀ (s s1 : Sys L) (n : Int), RunInv s n → s.run evs = some s1 → ∃ n1, RunInv s1 n1 := by
  induction evs with
  | nil =>
    intro s s1 n h hr
    simp only [Sys.run, Option.some.injEq] at hr
    subst hr
    exact ⟨n, h⟩
  | cons e es ih =>
    intro s s1 n h hr
    cases hst : s.step e with
    | none => simp [Sys.run, hst] at hr
    | some s2 =>
      simp only [Sys.run, hst] at hr
      obtain ⟨n2, h2⟩ := h.step e hst
      exact ih s2 s1 n2 h2 hr

/-- A fault of the key switch comes from the key enter. -/
theorem updateKey_error_enter {L : Libs} (m : model L) (k : String) (e : Fault)
    (he : updateKey m k = Except.error e) : k = "enter" := by
  rcases updateKey_cases m k with hu | ⟨_, _, _, hu⟩ | ⟨_, hu⟩ | ⟨_, _, hu⟩
    | ⟨_, _, hu⟩ | ⟨_, _, hu⟩ | ⟨hk, _⟩ | ⟨hk, _⟩ | hu
  all_goals first
    | exact hk
    | (rw [hu] at he; exact absurd he (by simp))

/-- When `Update` returns a command that starts a fetch: the model was idle,
it is loading afterwards, the fetch is the only one started, and the message
is the key s, the key u, or a step forward to a page that is not cached. -/
theorem Update_fetch_cases {L : Libs} (m : model L) (msg : Msg) (st : Step L)
    (hu : Update m msg = Except.ok st) (hf : st.cmd.fetches ≠ []) :
    m.loading = false ∧ st.m.loading = true ∧ (∃ r, st.cmd.fetches = [r]) ∧
    (msg = Msg.KeyMsg "s" ∨ msg = Msg.KeyMsg "u" ∨
      (m.lastPage ≠ m.page ∧ m.pages (m.page + 1) = none)) := by
  cases msg with
  | KeyMsg k =>
    simp only [Update] at hu
    rcases updateKey_cases m k with h | ⟨hl, _, hp, h⟩ | ⟨_, h⟩ | ⟨_, _, h⟩
      | ⟨hl, hk, h⟩ | ⟨hl, hk, h⟩ | ⟨_, e, h⟩ | ⟨_, u, h⟩ | h
    · rw [h, Except.ok.injEq] at hu
      subst hu
      exact absurd (tableFallback_fetches m _) hf
    · rw [h, Except.ok.injEq] at hu
      subst hu
      cases hq : m.pages (m.page + 1) with
      | some fs =>
        exfalso
        apply hf
        show (gotoNextPage m).2.fetches = []
        rw [gotoNextPage_cached m fs hq]
        rfl
      | none =>
        refine ⟨hl, ?_, ?_, Or.inr (Or.inr ⟨hp, rfl⟩)⟩
        · show (gotoNextPage m).1.loading = true
          rw [gotoNextPage_miss m hq]
        · show ∃ r, (gotoNextPage m).2.fetches = [r]
          rw [gotoNextPage_miss m hq]
          exact ⟨_, rfl⟩
    · rw [h, Except.ok.injEq] at hu
      subst hu
      exact absurd rfl hf
    · rw [h, Except.ok.injEq] at hu
      subst hu
      exact absurd rfl hf
    · rw [h, Except.ok.injEq] at hu
      subst hu
      subst hk
      exact ⟨hl, rfl, ⟨_, rfl⟩, Or.inl rfl⟩
    · rw [h, Except.ok.injEq] at hu
      subst hu
      subst hk
      exact ⟨hl, rfl, ⟨_, rfl⟩, Or.inr (Or.inl rfl)⟩
    · rw [h] at hu
      exact absurd hu (by simp)
    · rw [h, Except.ok.injEq] at hu
      subst hu
      exact absurd rfl hf
    · rw [h, Except.ok.injEq] at hu
      subst hu
      exact absurd rfl hf
  | forksLoaded fl =>
    simp only [Update, Except.ok.injEq] at hu
    subst hu
    exact absurd rfl hf
  | TickMsg t =>
    simp only [Update, Except.ok.injEq] at hu
    subst hu
    exact absurd (Cmd.fetches_ofLib _) hf
  | other t =>
    simp only [Update, Except.ok.injEq] at hu
    subst hu
    exact absurd (tableFallback_fetches m _) hf

/-- On the known last page the keys right and l are handed to the table and
start nothing. -/
theorem step_right_on_last_page {L : Libs} (s : Sys L) (k : String)
    (hk : k = "right" ∨ k = "l") (hlast : s.m.lastPage = s.m.page) :
    s.step (Msg.KeyMsg k)
      = some ⟨{ s.m with table := (L.tableUpdate s.m.table (Msg.KeyMsg k)).1 }, s.pending⟩ := by
  rw [step_key_ok s k _ (updateKey_right_blocked s.m k hk (fun h => h.2.2 hlast)),
    tableFallback_fetches, List.append_nil]
  rfl

/-! ## C1: a sort key and the pagination state -/

/-- C1, counterexample: on the idle model of page 1 (loading = false, cursor
"c1"), the key s leaves the page index at 1 and the cursor at "c1"; the claim
says page 0 and no cursor. -/
theorem sort_key_keeps_page_and_cursor :
    idleOnPageOne.loading = false ∧
    ∃ st, Update idleOnPageOne (Msg.KeyMsg "s") = Except.ok st ∧
      st.m.page = 1 ∧ st.m.endCursor = some "c1" :=
  ⟨rfl, _, updateKey_sort_s idleOnPageOne rfl, rfl, rfl⟩

/-- C1, as amended: for every model with loading = false, the key s or u
empties the page cache and sets the last-page marker to -1; the page index and
the cursor are left as they were, the fetch that is started is for page 0
without a cursor, and handling its completion sets the page index to 0 and the
cursor to the returned one. -/
theorem sort_key_resets_cache (L : Libs) (m : model L) (k : String)
    (hk : k = "s" ∨ k = "u") (hl : m.loading = false) :
    ∃ st, Update m (Msg.KeyMsg k) = Except.ok st ∧
      (∀ i, st.m.pages i = none) ∧ st.m.lastPage = -1 ∧
      st.m.page = m.page ∧ st.m.endCursor = m.endCursor ∧
      (∃ r, st.cmd.fetches = [r] ∧ r.page = 0 ∧ r.endCursor = none) ∧
      ∀ fl : forksLoadedMsg, fl.page = 0 →
        ∃ st2, Update st.m (Msg.forksLoaded fl) = Except.ok st2 ∧
          st2.m.page = 0 ∧ st2.m.endCursor = fl.endCursor := by
  rcases hk with h | h <;> subst h
  · refine ⟨_, updateKey_sort_s m hl, fun _ => rfl, rfl, rfl, rfl, ⟨_, rfl, rfl, rfl⟩, ?_⟩
    intro fl hfl
    refine ⟨_, rfl, ?_, ?_⟩
    · simp only [updateLoaded, updateTable]
      split <;> exact hfl
    · simp only [updateLoaded, updateTable]
      split <;> rfl
  · refine ⟨_, updateKey_sort_u m hl, fun _ => rfl, rfl, rfl, rfl, ⟨_, rfl, rfl, rfl⟩, ?_⟩
    intro fl hfl
    refine ⟨_, rfl, ?_, ?_⟩
    · simp only [updateLoaded, updateTable]
      split <;> exact hfl
    · simp only [updateLoaded, updateTable]
      split <;> rfl

/-- C1, witness: the amended statement at the idle model of page 1 and the key s. -/
theorem sort_key_resets_cache_witness :
    idleOnPageOne.loading = false ∧
    ∃ st, Update idleOnPageOne (Msg.KeyMsg "s") = Except.ok st ∧
      (∀ i, st.m.pages i = none) ∧ st.m.lastPage = -1 ∧
      st.m.page = idleOnPageOne.page ∧ st.m.endCursor = idleOnPageOne.endCursor ∧
      (∃ r, st.cmd.fetches = [r] ∧ r.page = 0 ∧ r.endCursor = none) ∧
      ∀ fl : forksLoadedMsg, fl.page = 0 →
        ∃ st2, Update st.m (Msg.forksLoaded fl) = Except.ok st2 ∧
          st2.m.page = 0 ∧ st2.m.endCursor = fl.endCursor :=
  ⟨rfl, sort_key_resets_cache plainLibs idleOnPageOne "s" (Or.inl rfl) rfl⟩

/-! ## C2: at most one fetch in flight -/

/-- C2: Update returns a command that starts a fetch only on a model with
loading = false, the model it returns then has loading = true, and the
command starts exactly one fetch; the run starts loading with the one fetch of
Init outstanding; hence in every run from the initial model in which each
forksLoadedMsg answers an outstanding fetch, the number of fetches started and
not yet answered never exceeds one. -/
theorem at_most_one_fetch_in_flight :
    (∀ (L : Libs) (m : model L) (msg : Msg) (st : Step L),
      Update m msg = Except.ok st → st.cmd.fetches ≠ [] →
      m.loading = false ∧ st.m.loading = true ∧ st.cmd.fetches.length = 1) ∧
    (∀ (L : Libs) (owner name headRef : String),
      (Sys.init L owner name headRef).m.loading = true ∧
      (Sys.init L owner name headRef).pending.length = 1) ∧
    (∀ (L : Libs) (owner name headRef : String) (evs : List Msg) (s : Sys L),
      (Sys.init L owner name headRef).run evs = some s → s.pending.length ≤ 1) := by
  refine ⟨?_, fun L owner name headRef => ⟨rfl, rfl⟩, ?_⟩
  · intro L m msg st hu hf
    obtain ⟨h1, h2, ⟨r, h3⟩, _⟩ := Update_fetch_cases m msg st hu hf
    exact ⟨h1, h2, by rw [h3]; rfl⟩
  · intro L owner name headRef evs s hr
    obtain ⟨n, h⟩ := RunInv.run evs _ s 0 (RunInv.init L owner name headRef) hr
    cases hp : s.pending with
    | nil => simp
    | cons r rs =>
      obtain ⟨h1, _⟩ := h.pend r (by rw [hp]; exact List.mem_cons_self r rs)
      rw [← hp, h1]
      simp

/-- C2, witness: the run where two pages have arrived and the key right has
started the fetch of page 2. -/
theorem at_most_one_fetch_in_flight_witness :
    ∃ s, session.run (twoPages ++ [Msg.KeyMsg "right"]) = some s ∧
      s.pending.length ≤ 1 :=
  ⟨_, rfl, at_most_one_fetch_in_flight.2.2 plainLibs "o" "r" "o:main"
    (twoPages ++ [Msg.KeyMsg "right"]) _ rfl⟩

/-! ## C3: keys while a fetch is outstanding -/

/-- C3, the code at the failing input: in the run where pages 0 and 1 have
arrived and the key right has started the fetch of page 2, the model is
loading with page index 1; the key up then sets the page index to 0 and shows
the forks of page 0, while loading stays true.  The keys left and h test
`!m.loading` before they call `gotoPreviousPage`; up and k do not. -/
theorem up_key_while_loading_changes_page :
    session.run (twoPages ++ [Msg.KeyMsg "right"])
      = some ⟨loadingPageTwo, [⟨"o", "r", "o:main", 2, "UPDATED_AT", some "c1"⟩]⟩ ∧
    loadingPageTwo.loading = true ∧ loadingPageTwo.page = 1 ∧
    loadingPageTwo.forks = [forkB] ∧
    ∃ st, Update loadingPageTwo (Msg.KeyMsg "up") = Except.ok st ∧
      st.cmd = Cmd.nil ∧ st.m.loading = true ∧ st.m.page = 0 ∧ st.m.forks = [forkA] := by
  exact ⟨rfl, rfl, rfl, rfl, _,
    updateKey_up_top loadingPageTwo "up" (Or.inl rfl) rfl (by decide), rfl, rfl, rfl, rfl⟩

/-! ## C4: a fetch completion -/

/-- C4: for every model and every forksLoadedMsg, Update stores the forks of
the message under its page index and leaves the other entries of pages as
they were, sets forks, page, totalCount and endCursor from the message, sets
loading to false, sets lastPage to the page index when hasNext is false and
leaves it when hasNext is true, leaves sortBy, and returns no command. -/
theorem fetch_completion_postcondition (L : Libs) (m : model L) (fl : forksLoadedMsg) :
    ∃ st, Update m (Msg.forksLoaded fl) = Except.ok st ∧
      (∀ i, st.m.pages i = if i = fl.page then some fl.forks else m.pages i) ∧
      st.m.forks = fl.forks ∧ st.m.page = fl.page ∧ st.m.totalCount = fl.totalCount ∧
      st.m.endCursor = fl.endCursor ∧ st.m.loading = false ∧
      st.m.lastPage = (if fl.hasNext = true then m.lastPage else fl.page) ∧
      st.m.sortBy = m.sortBy ∧ st.cmd = Cmd.nil ∧ st.opened = none := by
  refine ⟨_, rfl, ?_⟩
  cases h : fl.hasNext <;> simp [updateLoaded, updateTable, putPage, h]

/-! ## C5: a completion that no fetch asked for -/

/-- C5, counterexample: on the idle model of page 1 (loading = false), a
completion for page 5 is not ignored: the page index becomes 5, and forks,
the cursor, the last-page marker, the total count and pages[5] take the values
of the message. -/
theorem stray_completion_is_applied :
    idleOnPageOne.loading = false ∧ idleOnPageOne.page = 1 ∧
    ∃ st, Update idleOnPageOne (Msg.forksLoaded strayCompletion) = Except.ok st ∧
      st.m.page = 5 ∧ st.m.forks = [forkA] ∧ st.m.endCursor = none ∧
      st.m.lastPage = 5 ∧ st.m.totalCount = 99 ∧ st.m.pages 5 = some [forkA] :=
  ⟨rfl, rfl, _, rfl, rfl, rfl, rfl, rfl, rfl, rfl⟩

/-- C5, as amended: Update has no page-index check; for every model, whatever
its loading flag, a forksLoadedMsg sets page, forks, endCursor, totalCount and
pages[page] from the message.  What holds for a duplicate is idempotence:
handling the same message a second time, right after the first (so with
loading = false), leaves page, pages, forks, endCursor, lastPage, totalCount
and loading unchanged. -/
theorem completion_applied_and_idempotent (L : Libs) (m : model L) (fl : forksLoadedMsg) :
    ∃ st st2, Update m (Msg.forksLoaded fl) = Except.ok st ∧
      st.m.page = fl.page ∧ st.m.forks = fl.forks ∧ st.m.endCursor = fl.endCursor ∧
      st.m.totalCount = fl.totalCount ∧ st.m.pages fl.page = some fl.forks ∧
      st.m.loading = false ∧
      Update st.m (Msg.forksLoaded fl) = Except.ok st2 ∧
      st2.m.page = st.m.page ∧ (∀ i, st2.m.pages i = st.m.pages i) ∧
      st2.m.forks = st.m.forks ∧ st2.m.endCursor = st.m.endCursor ∧
      st2.m.lastPage = st.m.lastPage ∧ st2.m.totalCount = st.m.totalCount ∧
      st2.m.loading = st.m.loading := by
  refine ⟨_, _, rfl, ?_, ?_, ?_, ?_, ?_, ?_, rfl, ?_, ?_, ?_, ?_, ?_, ?_, ?_⟩ <;>
    cases h : fl.hasNext <;> simp [updateLoaded, updateTable, putPage, h]

/-! ## C10: the fetch started by a sort key -/

/-- C10: for every model with loading = false, the key s sets sortBy to
STARGAZERS and loading to true and returns the batch of the spinner tick and
the fetch of page 0 sorted by STARGAZERS without a cursor; the key u does the
same with UPDATED_AT; owner, name and headRef go into the fetch unchanged. -/
theorem sort_key_dispatches_first_page (L : Libs) (m : model L) (hl : m.loading = false) :
    (∃ st, Update m (Msg.KeyMsg "s") = Except.ok st ∧
      st.m.sortBy = "STARGAZERS" ∧ st.m.loading = true ∧
      st.cmd = Cmd.Batch (Cmd.lib (L.Tick m.spinner))
        (fetchForks m.owner m.name m.headRef 0 "STARGAZERS" none) ∧
      st.cmd.fetches = [⟨m.owner, m.name, m.headRef, 0, "STARGAZERS", none⟩] ∧
      st.m.owner = m.owner ∧ st.m.name = m.name ∧ st.m.headRef = m.headRef) ∧
    (∃ st, Update m (Msg.KeyMsg "u") = Except.ok st ∧
      st.m.sortBy = "UPDATED_AT" ∧ st.m.loading = true ∧
      st.cmd = Cmd.Batch (Cmd.lib (L.Tick m.spinner))
        (fetchForks m.owner m.name m.headRef 0 "UPDATED_AT" none) ∧
      st.cmd.fetches = [⟨m.owner, m.name, m.headRef, 0, "UPDATED_AT", none⟩] ∧
      st.m.owner = m.owner ∧ st.m.name = m.name ∧ st.m.headRef = m.headRef) :=
  ⟨⟨_, updateKey_sort_s m hl, rfl, rfl, rfl, rfl, rfl, rfl, rfl⟩,
    ⟨_, updateKey_sort_u m hl, rfl, rfl, rfl, rfl, rfl, rfl, rfl⟩⟩

/-- C10, witness: the idle model of page 1, sorted by UPDATED_AT. -/
theorem sort_key_dispatches_first_page_witness :
    idleOnPageOne.loading = false ∧
    (∃ st, Update idleOnPageOne (Msg.KeyMsg "s") = Except.ok st ∧
      st.m.sortBy = "STARGAZERS" ∧ st.m.loading = true ∧
      st.cmd.fetches = [⟨"o", "r", "o:main", 0, "STARGAZERS", none⟩]) :=
  ⟨rfl, by
    obtain ⟨st, h1, h2, h3, _, h5, _⟩ :=
      (sort_key_dispatches_first_page plainLibs idleOnPageOne rfl).1
    exact ⟨st, h1, h2, h3, h5⟩⟩

/-! ## C6: the last-page marker -/

/-- C6: in every state of a run from the initial model (keys, ticks, other
messages, and completions that answer the outstanding fetch), if lastPage = p
with p ≥ 0 then page ≤ p, each of the keys up, k, down, j, left, h, right, l is
handled without a fetch being started, and a message that starts a fetch is
the key s or the key u.  In particular, after page 0 has arrived with more
pages to come and page 1 has arrived as the last page, the key right starts
nothing and leaves every field of the model as it was, the table widget
apart, which is handed the key. -/
theorem last_page_blocks_forward_fetch :
    (∀ (L : Libs) (owner name headRef : String) (evs : List Msg) (s : Sys L) (p : Int),
      (Sys.init L owner name headRef).run evs = some s → s.m.lastPage = p → 0 ≤ p →
      s.m.page ≤ p ∧
      (∀ k : String, (k = "up" ∨ k = "k" ∨ k = "down" ∨ k = "j" ∨ k = "left" ∨ k = "h"
          ∨ k = "right" ∨ k = "l") →
        ∃ st, Update s.m (Msg.KeyMsg k) = Except.ok st ∧ st.cmd.fetches = []) ∧
      (∀ (msg : Msg) (st : Step L), Update s.m msg = Except.ok st → st.cmd.fetches ≠ [] →
        msg = Msg.KeyMsg "s" ∨ msg = Msg.KeyMsg "u")) ∧
    (∀ (L : Libs) (owner name headRef : String) (f0 f1 : List Fork) (tc0 tc1 : Int)
      (c0 : String) (c1 : Option String),
      ∃ s1 s2, (Sys.init L owner name headRef).run
          [Msg.forksLoaded ⟨f0, 0, tc0, some c0, true⟩, Msg.KeyMsg "right",
            Msg.forksLoaded ⟨f1, 1, tc1, c1, false⟩] = some s1 ∧
        s1.m.page = 1 ∧ s1.m.lastPage = 1 ∧ s1.m.loading = false ∧ s1.pending = [] ∧
        s1.step (Msg.KeyMsg "right") = some s2 ∧
        s2.m = { s1.m with table := (L.tableUpdate s1.m.table (Msg.KeyMsg "right")).1 } ∧
        s2.pending = []) := by
  constructor
  · intro L owner name headRef evs s p hr hlp hp
    obtain ⟨n, h⟩ := RunInv.run evs _ s 0 (RunInv.init L owner name headRef) hr
    have hn : s.m.lastPage = n - 1 ∧ 0 < n := by
      rcases h.last with h1 | h1
      · omega
      · exact h1
    have hlt := h.page_lt hn.2
    have hnn := h.pageNonneg
    have hsort : ∀ (msg : Msg) (st : Step L), Update s.m msg = Except.ok st →
        st.cmd.fetches ≠ [] → msg = Msg.KeyMsg "s" ∨ msg = Msg.KeyMsg "u" := by
      intro msg st hu hf
      obtain ⟨_, _, _, h1 | h1 | ⟨h1, h2⟩⟩ := Update_fetch_cases s.m msg st hu hf
      · exact Or.inl h1
      · exact Or.inr h1
      · exfalso
        exact (h.keys (s.m.page + 1)).2 ⟨by omega, by omega⟩ h2
    refine ⟨by omega, ?_, hsort⟩
    intro k hk
    cases hU : Update s.m (Msg.KeyMsg k) with
    | error e =>
      have he : k = "enter" := updateKey_error_enter s.m k e hU
      subst he
      exact absurd hk (by decide)
    | ok st =>
      refine ⟨st, rfl, ?_⟩
      by_contra hf
      have h2 := hsort _ st hU hf
      rcases hk with h1 | h1 | h1 | h1 | h1 | h1 | h1 | h1 <;> subst h1 <;>
        simp at h2
  · intro L owner name headRef f0 f1 tc0 tc1 c0 c1
    exact ⟨_, _, rfl, rfl, rfl, rfl, rfl,
      step_right_on_last_page _ "right" (Or.inl rfl) rfl, rfl, rfl⟩

/-- C6, witness: the run where page 1 has arrived as the last page. -/
theorem last_page_blocks_forward_fetch_witness :
    ∃ s, session.run lastPageRun = some s ∧ s.m.lastPage = 1 ∧ s.m.page ≤ 1 ∧
      ∃ st, Update s.m (Msg.KeyMsg "right") = Except.ok st ∧ st.cmd.fetches = [] := by
  have h := last_page_blocks_forward_fetch.1 plainLibs "o" "r" "o:main" lastPageRun _ 1
    rfl rfl (by decide)
  exact ⟨_, rfl, rfl, h.1, h.2.1 "right" (by simp)⟩

/-! ## C7: the key right on a cached next page -/

/-- C7, counterexample: pages 0 and 1 are cached, page 1 arrived empty and
without a cursor, and the user is back on page 0 with loading = false.  The
key right is handed to the table: the page index stays 0 and the forks of page
0 stay shown, although page 1 is a key of pages. -/
theorem right_key_blocked_without_cursor :
    session.run secondPageNoCursor = some ⟨cachedNoCursor, []⟩ ∧
    cachedNoCursor.loading = false ∧
    cachedNoCursor.pages (cachedNoCursor.page + 1) = some [] ∧
    ∃ st, Update cachedNoCursor (Msg.KeyMsg "right") = Except.ok st ∧
      st.m.page = 0 ∧ st.m.forks = [forkA] :=
  ⟨rfl, rfl, rfl, _,
    updateKey_right_blocked cachedNoCursor "right" (Or.inl rfl) (fun h => h.2.1 rfl), rfl, rfl⟩

/-- C7, as amended: for every model with loading = false that holds a cursor
(endCursor is not nil) and whose page is not the known last page, if page+1 is
a key of pages then the key right or l increases page by one, sets forks to
pages[page+1], keeps loading = false and returns no command. -/
theorem right_key_served_from_cache (L : Libs) (m : model L) (k : String) (fs : List Fork)
    (hk : k = "right" ∨ k = "l") (hl : m.loading = false) (hc : m.endCursor ≠ none)
    (hp : m.lastPage ≠ m.page) (hfs : m.pages (m.page + 1) = some fs) :
    ∃ st, Update m (Msg.KeyMsg k) = Except.ok st ∧
      st.m.page = m.page + 1 ∧ st.m.forks = fs ∧ st.m.loading = false ∧
      st.cmd = Cmd.nil ∧ st.cmd.fetches = [] := by
  refine ⟨_, updateKey_right_open m k hk hl hc hp, ?_⟩
  rw [gotoNextPage_cached m fs hfs]
  exact ⟨rfl, rfl, hl, rfl, rfl⟩

/-- C7, witness: pages 0 and 1 cached with a cursor, the user back on page 0. -/
theorem right_key_served_from_cache_witness :
    session.run (twoPages ++ [Msg.KeyMsg "left"]) = some ⟨backOnPageZero, []⟩ ∧
    ∃ st, Update backOnPageZero (Msg.KeyMsg "right") = Except.ok st ∧
      st.m.page = 0 + 1 ∧ st.m.forks = [forkB] ∧ st.m.loading = false ∧
      st.cmd = Cmd.nil ∧ st.cmd.fetches = [] :=
  ⟨rfl, right_key_served_from_cache plainLibs backOnPageZero "right" [forkB] (Or.inl rfl) rfl
    (by simp [backOnPageZero, idleOnPageOne]) (by decide) rfl⟩

/-! ## C8: the key right on a next page that is not cached -/

/-- C8, counterexample: page 0 has arrived with more pages to come and without
a cursor; loading = false, page 1 is not a key of pages and no last page is
known.  The key right is handed to the table: loading stays false and no fetch
is started. -/
theorem right_key_no_fetch_without_cursor :
    session.run firstPageNoCursor = some ⟨idleNoCursor, []⟩ ∧
    idleNoCursor.loading = false ∧
    idleNoCursor.pages (idleNoCursor.page + 1) = none ∧
    idleNoCursor.lastPage ≠ idleNoCursor.page ∧
    ∃ st, Update idleNoCursor (Msg.KeyMsg "right") = Except.ok st ∧
      st.m.loading = false ∧ st.cmd = Cmd.nil ∧ st.cmd.fetches = [] :=
  ⟨rfl, rfl, rfl, by decide, _,
    updateKey_right_blocked idleNoCursor "right" (Or.inl rfl) (fun h => h.2.1 rfl),
    rfl, rfl, rfl⟩

/-- In the range of `int` the exact value is the Go value. -/
theorem wrapInt_fits (x : Int) (h0 : minInt ≤ x) (h1 : x ≤ maxInt) : wrapInt x = x := by
  unfold wrapInt
  unfold minInt at h0 ⊢
  unfold maxInt at h1
  omega

/-- One more than the largest `int` is, in Go, the smallest `int`. -/
theorem wrapInt_overflow : wrapInt (maxInt + 1) = minInt := by
  decide

/-- C8, as amended: for every model with loading = false that holds a cursor
(endCursor is not nil), whose page index is an int below the largest one, so
that page+1 does not overflow, in which page+1 is not a key of pages and page
is not the known last page, the key right or l sets loading to true, leaves
page, pages, forks, sortBy, endCursor and lastPage unchanged, and returns the
batch of the spinner tick and the fetch of page+1 with the current sortBy and
the current endCursor; page+1 is there the sum that Go computes. -/
theorem right_key_dispatches_next_page (L : Libs) (m : model L) (k : String)
    (hk : k = "right" ∨ k = "l") (hl : m.loading = false) (hc : m.endCursor ≠ none)
    (hp : m.lastPage ≠ m.page) (hmiss : m.pages (m.page + 1) = none)
    (hlo : minInt ≤ m.page) (hhi : m.page < maxInt) :
    ∃ st, Update m (Msg.KeyMsg k) = Except.ok st ∧
      st.m.loading = true ∧ st.m.page = m.page ∧ st.m.pages = m.pages ∧
      st.m.forks = m.forks ∧ st.m.sortBy = m.sortBy ∧ st.m.endCursor = m.endCursor ∧
      st.m.lastPage = m.lastPage ∧
      st.cmd = Cmd.Batch (Cmd.lib (L.Tick m.spinner))
        (fetchForks m.owner m.name m.headRef (m.page + 1) m.sortBy m.endCursor) ∧
      st.cmd.fetches = [⟨m.owner, m.name, m.headRef, m.page + 1, m.sortBy, m.endCursor⟩] ∧
      wrapInt (m.page + 1) = m.page + 1 := by
  refine ⟨_, updateKey_right_open m k hk hl hc hp, ?_⟩
  rw [gotoNextPage_miss m hmiss]
  refine ⟨rfl, rfl, rfl, rfl, rfl, rfl, rfl, rfl, rfl, ?_⟩
  apply wrapInt_fits
  · omega
  · unfold maxInt at hhi ⊢
    omega

/-- C8, witness: the idle model of page 1, where page 2 is not cached. -/
theorem right_key_dispatches_next_page_witness :
    ∃ st, Update idleOnPageOne (Msg.KeyMsg "right") = Except.ok st ∧
      st.m.loading = true ∧ st.m.page = 1 ∧
      st.cmd.fetches = [⟨"o", "r", "o:main", 2, "UPDATED_AT", some "c1"⟩] := by
  obtain ⟨st, h1, h2, h3, _, _, _, _, _, _, h4, _⟩ :=
    right_key_dispatches_next_page plainLibs idleOnPageOne "right" (Or.inl rfl) rfl
      (by simp [idleOnPageOne]) (by decide) rfl (by decide) (by decide)
  exact ⟨st, h1, h2, h3, h4⟩

/-! ## C9: the key left -/

/-- C9: for every model with loading = false and page > 0 in which page-1 is a
key of pages, the key left or h decreases page by one, sets forks to
pages[page-1], returns no command and leaves pages, loading, endCursor,
lastPage, sortBy and totalCount unchanged.  And in the run where page 0
arrives with more to come, the key right fetches page 1 and page 1 arrives,
two keys left end on page 0 with the forks that arrived for page 0, no fetch
is started, and the table is the one built from those forks by the first key
left, handed the second key left. -/
theorem left_key_served_from_cache :
    (∀ (L : Libs) (m : model L) (k : String) (fs : List Fork),
      (k = "left" ∨ k = "h") → m.loading = false → 0 < m.page →
      m.pages (m.page - 1) = some fs →
      ∃ st, Update m (Msg.KeyMsg k) = Except.ok st ∧
        st.m.page = m.page - 1 ∧ st.m.forks = fs ∧ st.cmd = Cmd.nil ∧
        st.m.pages = m.pages ∧ st.m.loading = m.loading ∧
        st.m.endCursor = m.endCursor ∧ st.m.lastPage = m.lastPage ∧
        st.m.sortBy = m.sortBy ∧ st.m.totalCount = m.totalCount) ∧
    (∀ (L : Libs) (owner name headRef : String) (f0 f1 : List Fork) (tc0 tc1 : Int)
      (c0 : String) (c1 : Option String) (more : Bool),
      ∃ s1 s2, (Sys.init L owner name headRef).run
          [Msg.forksLoaded ⟨f0, 0, tc0, some c0, true⟩, Msg.KeyMsg "right",
            Msg.forksLoaded ⟨f1, 1, tc1, c1, more⟩] = some s1 ∧
        s1.m.page = 1 ∧ s1.m.forks = f1 ∧ s1.m.loading = false ∧ s1.pending = [] ∧
        s1.run [Msg.KeyMsg "left", Msg.KeyMsg "left"] = some s2 ∧
        s2.m.page = 0 ∧ s2.m.forks = f0 ∧ s2.m.loading = false ∧ s2.pending = [] ∧
        s2.m.table
          = (L.tableUpdate (L.tableNew (tableRows L f0)) (Msg.KeyMsg "left")).1) := by
  constructor
  · intro L m k fs hk hl hp hfs
    refine ⟨_, updateKey_left_open m k hk hp hl, ?_⟩
    rw [gotoPreviousPage_cached m fs hfs]
    exact ⟨rfl, rfl, rfl, rfl, rfl, rfl, rfl, rfl, rfl⟩
  · intro L owner name headRef f0 f1 tc0 tc1 c0 c1 more
    cases more <;>
      exact ⟨_, _, rfl, rfl, rfl, rfl, rfl, rfl, rfl, rfl, rfl, Cmd.fetches_ofLib _, rfl⟩

/-- C9, witness: the idle model of page 1 and the key left. -/
theorem left_key_served_from_cache_witness :
    ∃ st, Update idleOnPageOne (Msg.KeyMsg "left") = Except.ok st ∧
      st.m.page = 0 ∧ st.m.forks = [forkA] ∧ st.cmd = Cmd.nil := by
  obtain ⟨st, h1, h2, h3, h4, _⟩ :=
    left_key_served_from_cache.1 plainLibs idleOnPageOne "left" [forkA] (Or.inl rfl) rfl
      (by decide) rfl
  exact ⟨st, h1, h2, h3, h4⟩

/-! ## C11: the key enter while a fetch is outstanding -/

/-- Reading any index of an empty fork list is a fault. -/
theorem forkAt_nil (i : Int) : forkAt [] i = Except.error (Fault.indexOutOfRange i 0) := by
  unfold forkAt
  split <;> rfl

/-- The case enter of the key switch. -/
theorem updateKey_enter {L : Libs} (m : model L) :
    updateKey m "enter" =
      match forkAt m.forks (L.Cursor m.table) with
      | Except.ok f => Except.ok ⟨m, Cmd.nil, some f.Url⟩
      | Except.error e => Except.error e := by
  simp [updateKey]

/-- C11, the code at the failing input: the case enter has no test of
m.loading.  On the initial model (loading = true, no forks) the key enter
reads `m.forks[m.table.Cursor()]` on an empty list, which is an index out of
range, for every widget library; the run ends there.  The same happens on the
model right after a sort key.  And while page 2 is being fetched with the forks
of page 1 shown, the key enter opens the URL of the fork under the cursor. -/
theorem enter_key_while_loading_faults :
    (∀ (L : Libs) (owner name headRef : String),
      (initialModel L owner name headRef).loading = true ∧
      Update (initialModel L owner name headRef) (Msg.KeyMsg "enter")
        = Except.error (Fault.indexOutOfRange (L.Cursor L.initialTable) 0)) ∧
    session.step (Msg.KeyMsg "enter") = none ∧
    (∃ st, Update idleOnPageOne (Msg.KeyMsg "s") = Except.ok st ∧ st.m.loading = true ∧
      Update st.m (Msg.KeyMsg "enter") = Except.error (Fault.indexOutOfRange 0 0)) ∧
    (loadingPageTwo.loading = true ∧
      Update loadingPageTwo (Msg.KeyMsg "enter")
        = Except.ok ⟨loadingPageTwo, Cmd.nil, some "https://github.com/bob/repo"⟩) := by
  refine ⟨fun L owner name headRef => ⟨rfl, ?_⟩, ?_, ⟨_, updateKey_sort_s idleOnPageOne rfl,
    rfl, ?_⟩, rfl, ?_⟩
  · show updateKey (initialModel L owner name headRef) "enter" = _
    rw [updateKey_enter]
    have hf : forkAt (initialModel L owner name headRef).forks
        (L.Cursor (initialModel L owner name headRef).table)
        = Except.error (Fault.indexOutOfRange (L.Cursor L.initialTable) 0) :=
      forkAt_nil _
    rw [hf]
  · rfl
  · rfl
  · rfl

/-! ## C13 and C17: the page cache in a run -/

/-- C13, counterexample: after the first page has arrived, the key s empties
the page cache and leaves the page index at 0, so in the state that follows
page is not a key of pages. -/
theorem page_not_cached_after_sort :
    ∃ s, session.run sortAfterFirstPage = some s ∧
      s.m.loading = true ∧ s.m.page = 0 ∧ s.m.pages s.m.page = none :=
  ⟨_, rfl, rfl, rfl, rfl⟩

/-- C13, as amended: in every state of a run from the initial model (keys,
ticks, other messages, and completions answering the outstanding fetch) that
has loading = false, or whose page cache is not empty, page is a key of pages
and forks is the page stored under it. -/
theorem current_page_is_cached (L : Libs) (owner name headRef : String) (evs : List Msg)
    (s : Sys L) (hr : (Sys.init L owner name headRef).run evs = some s)
    (hs : s.m.loading = false ∨ ∃ i, s.m.pages i ≠ none) :
    s.m.pages s.m.page = some s.m.forks := by
  obtain ⟨n, h⟩ := RunInv.run evs _ s 0 (RunInv.init L owner name headRef) hr
  rcases hs with hl | ⟨i, hi⟩
  · exact h.current (h.idle hl).2
  · have := (h.keys i).1 hi
    exact h.current (by omega)

/-- C13, witness: the run where two pages have arrived. -/
theorem current_page_is_cached_witness :
    ∃ s, session.run twoPages = some s ∧ s.m.loading = false ∧
      s.m.pages s.m.page = some s.m.forks :=
  ⟨_, rfl, rfl, current_page_is_cached plainLibs "o" "r" "o:main" twoPages _ rfl (Or.inl rfl)⟩

/-- C17: in every state of a run from the initial model (keys, ticks, other
messages, and completions answering the outstanding fetch) with
loading = false, there is K ≥ 0 such that the keys of pages are exactly
0, ..., K, the page index is between 0 and K, forks is pages[page], and
lastPage is -1 or K. -/
theorem idle_cache_is_contiguous (L : Libs) (owner name headRef : String) (evs : List Msg)
    (s : Sys L) (hr : (Sys.init L owner name headRef).run evs = some s)
    (hl : s.m.loading = false) :
    ∃ K : Int, 0 ≤ K ∧ (∀ i, s.m.pages i ≠ none ↔ (0 ≤ i ∧ i ≤ K)) ∧
      0 ≤ s.m.page ∧ s.m.page ≤ K ∧ s.m.pages s.m.page = some s.m.forks ∧
      (s.m.lastPage = -1 ∨ s.m.lastPage = K) := by
  obtain ⟨n, h⟩ := RunInv.run evs _ s 0 (RunInv.init L owner name headRef) hr
  have hn := (h.idle hl).2
  have hlt := h.page_lt hn
  refine ⟨n - 1, by omega, ?_, h.pageNonneg, by omega, h.current hn, ?_⟩
  · intro i
    rw [h.keys i]
    omega
  · rcases h.last with h1 | ⟨h1, _⟩
    · exact Or.inl h1
    · exact Or.inr h1

/-- C17, witness: the run where two pages have arrived; the keys are 0 and 1. -/
theorem idle_cache_is_contiguous_witness :
    ∃ s, session.run twoPages = some s ∧ s.m.loading = false ∧
      ∃ K : Int, 0 ≤ K ∧ (∀ i, s.m.pages i ≠ none ↔ (0 ≤ i ∧ i ≤ K)) ∧
        0 ≤ s.m.page ∧ s.m.page ≤ K ∧ s.m.pages s.m.page = some s.m.forks ∧
        (s.m.lastPage = -1 ∨ s.m.lastPage = K) :=
  ⟨_, rfl, rfl, idle_cache_is_contiguous plainLibs "o" "r" "o:main" twoPages _ rfl rfl⟩

/-! ## C14: the rows of the table -/

/-- A loop that appends one image per element builds the list of the images,
in order, after what was there. -/
theorem foldl_append_map {α β : Type} (g : α → β) (xs : List α) :
    ∀ acc : List β, xs.foldl (fun ys x => ys ++ [g x]) acc = acc ++ xs.map g := by
  induction xs with
  | nil =>
    intro acc
    simp
  | cons x xs ih =>
    intro acc
    rw [List.foldl_cons, ih, List.map_cons, List.append_assoc]
    rfl

/-- The cycles of `yearDay`, on named quantities: the year and the day of the
year that they give add up to the day number, and the day of the year is
within the year. -/
theorem yearDay_core (z n400 d1 n100 d2 n4 d3 n1 : Int)
    (h1 : n400 = (z - 11323) / 146097) (h2 : d1 = z - 11323 - 146097 * n400)
    (h3 : n100 = if d1 / 36524 < 3 then d1 / 36524 else 3)
    (h4 : d2 = d1 - 36524 * n100) (h5 : n4 = d2 / 1461) (h6 : d3 = d2 - 1461 * n4)
    (h7 : n1 = if d3 / 365 < 3 then d3 / 365 else 3) :
    yearStart (2001 + 400 * n400 + 100 * n100 + 4 * n4 + n1) + (d3 - 365 * n1) = z ∧
    0 ≤ d3 - 365 * n1 ∧
    d3 - 365 * n1 ≤ 364 + leapDay (isLeap (2001 + 400 * n400 + 100 * n100 + 4 * n4 + n1)) := by
  have b1 : 0 ≤ d1 ∧ d1 < 146097 := by omega
  have b2 : 0 ≤ n100 ∧ n100 ≤ 3 := by split_ifs at h3 <;> omega
  have b3 : 0 ≤ d2 ∧ d2 ≤ 36524 ∧ (n100 < 3 → d2 < 36524) := by split_ifs at h3 <;> omega
  have b4 : 0 ≤ n4 ∧ n4 ≤ 24 := by omega
  have b5 : 0 ≤ d3 ∧ d3 ≤ 1460 ∧ (n4 = 24 → n100 < 3 → d3 < 1460) := by omega
  have b6 : 0 ≤ n1 ∧ n1 ≤ 3 := by split_ifs at h7 <;> omega
  have b7 : 0 ≤ d3 - 365 * n1 ∧ d3 - 365 * n1 ≤ 365 ∧ (n1 < 3 → d3 - 365 * n1 < 365) := by
    split_ifs at h7 <;> omega
  have hz : z = 11323 + 146097 * n400 + 36524 * n100 + 1461 * n4 + d3 := by omega
  clear h1 h2 h3 h4 h5 h6 h7
  have q4 : (2001 + 400 * n400 + 100 * n100 + 4 * n4 + n1 - 1) / 4
      = 500 + 100 * n400 + 25 * n100 + n4 := by omega
  have q100 : (2001 + 400 * n400 + 100 * n100 + 4 * n4 + n1 - 1) / 100
      = 20 + 4 * n400 + n100 := by omega
  have q400 : (2001 + 400 * n400 + 100 * n100 + 4 * n4 + n1 - 1) / 400 = 5 + n400 := by omega
  refine ⟨?_, b7.1, ?_⟩
  · unfold yearStart
    rw [q4, q100, q400]
    omega
  · unfold leapDay isLeap
    simp only [decide_eq_true_eq]
    split_ifs with hl
    · omega
    · have hn : ¬ (n1 = 3 ∧ (n4 ≠ 24 ∨ n100 = 3)) := by
        intro hc
        apply hl
        omega
      omega

theorem yearDay_ok (z : Int) :
    yearStart (yearDay z).1 + (yearDay z).2 = z ∧ 0 ≤ (yearDay z).2 ∧
    (yearDay z).2 ≤ 364 + leapDay (isLeap (yearDay z).1) :=
  yearDay_core z _ _ _ _ _ _ _ rfl rfl rfl rfl rfl rfl rfl

theorem daysBefore_at1 (leap : Bool) : daysBefore leap 1 = 0 := rfl

theorem daysBefore_at2 (leap : Bool) : daysBefore leap 2 = 31 := rfl

theorem daysBefore_at3 (leap : Bool) : daysBefore leap 3 = 59 + leapDay leap := rfl

theorem daysBefore_at4 (leap : Bool) : daysBefore leap 4 = 90 + leapDay leap := rfl

theorem daysBefore_at5 (leap : Bool) : daysBefore leap 5 = 120 + leapDay leap := rfl

theorem daysBefore_at6 (leap : Bool) : daysBefore leap 6 = 151 + leapDay leap := rfl

theorem daysBefore_at7 (leap : Bool) : daysBefore leap 7 = 181 + leapDay leap := rfl

theorem daysBefore_at8 (leap : Bool) : daysBefore leap 8 = 212 + leapDay leap := rfl

theorem daysBefore_at9 (leap : Bool) : daysBefore leap 9 = 243 + leapDay leap := rfl

theorem daysBefore_at10 (leap : Bool) : daysBefore leap 10 = 273 + leapDay leap := rfl

theorem daysBefore_at11 (leap : Bool) : daysBefore leap 11 = 304 + leapDay leap := rfl

theorem daysBefore_at12 (leap : Bool) : daysBefore leap 12 = 334 + leapDay leap := rfl

theorem daysBefore_at13 (leap : Bool) : daysBefore leap 13 = 365 + leapDay leap := rfl

theorem leapDay_range (leap : Bool) : 0 ≤ leapDay leap ∧ leapDay leap ≤ 1 := by
  cases leap <;> decide

/-- A day of the year falls in the month that `monthOf` gives. -/
theorem month_ok (leap : Bool) (yday : Int) (h0 : 0 ≤ yday) (h1 : yday ≤ 364 + leapDay leap) :
    1 ≤ monthOf leap yday ∧ monthOf leap yday ≤ 12 ∧
    daysBefore leap (monthOf leap yday) ≤ yday ∧
    yday < daysBefore leap (monthOf leap yday + 1) := by
  have hl := leapDay_range leap
  by_cases c1 : yday < 31
  · have hm : monthOf leap yday = 1 := by
      unfold monthOf
      rw [if_pos c1]
    rw [hm, show ((1 : Int) + 1) = 2 from rfl, daysBefore_at1, daysBefore_at2]
    omega
  by_cases c2 : yday < 59 + leapDay leap
  · have hm : monthOf leap yday = 2 := by
      unfold monthOf
      rw [if_neg c1, if_pos c2]
    rw [hm, show ((2 : Int) + 1) = 3 from rfl, daysBefore_at2, daysBefore_at3]
    omega
  by_cases c3 : yday < 90 + leapDay leap
  · have hm : monthOf leap yday = 3 := by
      unfold monthOf
      rw [if_neg c1, if_neg c2, if_pos c3]
    rw [hm, show ((3 : Int) + 1) = 4 from rfl, daysBefore_at3, daysBefore_at4]
    omega
  by_cases c4 : yday < 120 + leapDay leap
  · have hm : monthOf leap yday = 4 := by
      unfold monthOf
      rw [if_neg c1, if_neg c2, if_neg c3, if_pos c4]
    rw [hm, show ((4 : Int) + 1) = 5 from rfl, daysBefore_at4, daysBefore_at5]
    omega
  by_cases c5 : yday < 151 + leapDay leap
  · have hm : monthOf leap yday = 5 := by
      unfold monthOf
      rw [if_neg c1, if_neg c2, if_neg c3, if_neg c4, if_pos c5]
    rw [hm, show ((5 : Int) + 1) = 6 from rfl, daysBefore_at5, daysBefore_at6]
    omega
  by_cases c6 : yday < 181 + leapDay leap
  · have hm : monthOf leap yday = 6 := by
      unfold monthOf
      rw [if_neg c1, if_neg c2, if_neg c3, if_neg c4, if_neg c5, if_pos c6]
    rw [hm, show ((6 : Int) + 1) = 7 from rfl, daysBefore_at6, daysBefore_at7]
    omega
  by_cases c7 : yday < 212 + leapDay leap
  · have hm : monthOf leap yday = 7 := by
      unfold monthOf
      rw [if_neg c1, if_neg c2, if_neg c3, if_neg c4, if_neg c5, if_neg c6, if_pos c7]
    rw [hm, show ((7 : Int) + 1) = 8 from rfl, daysBefore_at7, daysBefore_at8]
    omega
  by_cases c8 : yday < 243 + leapDay leap
  · have hm : monthOf leap yday = 8 := by
      unfold monthOf
      rw [if_neg c1, if_neg c2, if_neg c3, if_neg c4, if_neg c5, if_neg c6, if_neg c7, if_pos c8]
    rw [hm, show ((8 : Int) + 1) = 9 from rfl, daysBefore_at8, daysBefore_at9]
    omega
  by_cases c9 : yday < 273 + leapDay leap
  · have hm : monthOf leap yday = 9 := by
      unfold monthOf
      rw [if_neg c1, if_neg c2, if_neg c3, if_neg c4, if_neg c5, if_neg c6, if_neg c7, if_neg c8, if_pos c9]
    rw [hm, show ((9 : Int) + 1) = 10 from rfl, daysBefore_at9, daysBefore_at10]
    omega
  by_cases c10 : yday < 304 + leapDay leap
  · have hm : monthOf leap yday = 10 := by
      unfold monthOf
      rw [if_neg c1, if_neg c2, if_neg c3, if_neg c4, if_neg c5, if_neg c6, if_neg c7, if_neg c8, if_neg c9, if_pos c10]
    rw [hm, show ((10 : Int) + 1) = 11 from rfl, daysBefore_at10, daysBefore_at11]
    omega
  by_cases c11 : yday < 334 + leapDay leap
  · have hm : monthOf leap yday = 11 := by
      unfold monthOf
      rw [if_neg c1, if_neg c2, if_neg c3, if_neg c4, if_neg c5, if_neg c6, if_neg c7, if_neg c8, if_neg c9, if_neg c10, if_pos c11]
    rw [hm, show ((11 : Int) + 1) = 12 from rfl, daysBefore_at11, daysBefore_at12]
    omega
  · have hm : monthOf leap yday = 12 := by
      unfold monthOf
      rw [if_neg c1, if_neg c2, if_neg c3, if_neg c4, if_neg c5, if_neg c6, if_neg c7, if_neg c8, if_neg c9, if_neg c10, if_neg c11]
    rw [hm, show ((12 : Int) + 1) = 13 from rfl, daysBefore_at12, daysBefore_at13]
    omega

theorem civilDate_fst (z : Int) : (civilDate z).1 = (yearDay z).1 := rfl

theorem civilDate_month (z : Int) :
    (civilDate z).2.1 = monthOf (isLeap (yearDay z).1) (yearDay z).2 := rfl

theorem civilDate_day (z : Int) :
    (civilDate z).2.2 = (yearDay z).2
      - daysBefore (isLeap (yearDay z).1) (monthOf (isLeap (yearDay z).1) (yearDay z).2) + 1 :=
  rfl

/-- The date that `civilDate` computes is a date of the calendar, and it is
the date of the day number it was computed from. -/
theorem civilDate_dayNumber (z : Int) :
    1 ≤ (civilDate z).2.1 ∧ (civilDate z).2.1 ≤ 12 ∧ 1 ≤ (civilDate z).2.2 ∧
    (civilDate z).2.2 ≤ daysIn (isLeap (civilDate z).1) (civilDate z).2.1 ∧
    dayNumber (civilDate z).1 (civilDate z).2.1 (civilDate z).2.2 = z := by
  obtain ⟨a, b, c⟩ := yearDay_ok z
  obtain ⟨m1, m2, m3, m4⟩ := month_ok (isLeap (yearDay z).1) (yearDay z).2 b c
  rw [civilDate_fst, civilDate_month, civilDate_day]
  unfold dayNumber daysIn
  generalize yearStart (yearDay z).1 = ys at a ⊢
  generalize daysBefore (isLeap (yearDay z).1) (monthOf (isLeap (yearDay z).1) (yearDay z).2)
    = db at m3 ⊢
  generalize daysBefore (isLeap (yearDay z).1)
    (monthOf (isLeap (yearDay z).1) (yearDay z).2 + 1) = db1 at m4 ⊢
  generalize monthOf (isLeap (yearDay z).1) (yearDay z).2 = mo at m1 m2 ⊢
  generalize (yearDay z).2 = yd at a b c m3 m4 ⊢
  refine ⟨m1, m2, ?_, ?_, ?_⟩ <;> omega

/-- A year has 365 days, and one more when it is a leap year. -/
theorem yearStart_succ (year : Int) :
    yearStart (year + 1) = yearStart year + 365 + leapDay (isLeap year) := by
  unfold yearStart leapDay isLeap
  simp only [decide_eq_true_eq]
  split_ifs with hl
  · omega
  · have hn : ¬ (year % 4 = 0 ∧ (year % 100 ≠ 0 ∨ year % 400 = 0)) := hl
    omega

/-- A later year starts later. -/
theorem yearStart_mono (y1 y2 : Int) (h : y1 < y2) : yearStart (y1 + 1) ≤ yearStart y2 := by
  unfold yearStart
  omega

theorem month_at1 (leap : Bool) (day : Int) (h0 : 1 ≤ day)
    (h1 : day ≤ daysIn leap 1) :
    0 ≤ daysBefore leap 1 + (day - 1) ∧
    daysBefore leap 1 + (day - 1) ≤ 364 + leapDay leap ∧
    monthOf leap (daysBefore leap 1 + (day - 1)) = 1 := by
  have hl := leapDay_range leap
  unfold daysIn at h1
  rw [show ((1 : Int) + 1) = 2 from rfl, daysBefore_at1, daysBefore_at2] at h1
  rw [daysBefore_at1]
  refine ⟨by omega, by omega, ?_⟩
  unfold monthOf
  rw [if_pos (show 0 + (day - 1) < 31 by omega)]

theorem month_at2 (leap : Bool) (day : Int) (h0 : 1 ≤ day)
    (h1 : day ≤ daysIn leap 2) :
    0 ≤ daysBefore leap 2 + (day - 1) ∧
    daysBefore leap 2 + (day - 1) ≤ 364 + leapDay leap ∧
    monthOf leap (daysBefore leap 2 + (day - 1)) = 2 := by
  have hl := leapDay_range leap
  unfold daysIn at h1
  rw [show ((2 : Int) + 1) = 3 from rfl, daysBefore_at2, daysBefore_at3] at h1
  rw [daysBefore_at2]
  refine ⟨by omega, by omega, ?_⟩
  unfold monthOf
  rw [if_neg (show ¬ 31 + (day - 1) < 31 by omega), if_pos (show 31 + (day - 1) < 59 + leapDay leap by omega)]

theorem month_at3 (leap : Bool) (day : Int) (h0 : 1 ≤ day)
    (h1 : day ≤ daysIn leap 3) :
    0 ≤ daysBefore leap 3 + (day - 1) ∧
    daysBefore leap 3 + (day - 1) ≤ 364 + leapDay leap ∧
    monthOf leap (daysBefore leap 3 + (day - 1)) = 3 := by
  have hl := leapDay_range leap
  unfold daysIn at h1
  rw [show ((3 : Int) + 1) = 4 from rfl, daysBefore_at3, daysBefore_at4] at h1
  rw [daysBefore_at3]
  refine ⟨by omega, by omega, ?_⟩
  unfold monthOf
  rw [if_neg (show ¬ 59 + leapDay leap + (day - 1) < 31 by omega), if_neg (show ¬ 59 + leapDay leap + (day - 1) < 59 + leapDay leap by omega), if_pos (show 59 + leapDay leap + (day - 1) < 90 + leapDay leap by omega)]

theorem month_at4 (leap : Bool) (day : Int) (h0 : 1 ≤ day)
    (h1 : day ≤ daysIn leap 4) :
    0 ≤ daysBefore leap 4 + (day - 1) ∧
    daysBefore leap 4 + (day - 1) ≤ 364 + leapDay leap ∧
    monthOf leap (daysBefore leap 4 + (day - 1)) = 4 := by
  have hl := leapDay_range leap
  unfold daysIn at h1
  rw [show ((4 : Int) + 1) = 5 from rfl, daysBefore_at4, daysBefore_at5] at h1
  rw [daysBefore_at4]
  refine ⟨by omega, by omega, ?_⟩
  unfold monthOf
  rw [if_neg (show ¬ 90 + leapDay leap + (day - 1) < 31 by omega), if_neg (show ¬ 90 + leapDay leap + (day - 1) < 59 + leapDay leap by omega), if_neg (show ¬ 90 + leapDay leap + (day - 1) < 90 + leapDay leap by omega), if_pos (show 90 + leapDay leap + (day - 1) < 120 + leapDay leap by omega)]

theorem month_at5 (leap : Bool) (day : Int) (h0 : 1 ≤ day)
    (h1 : day ≤ daysIn leap 5) :
    0 ≤ daysBefore leap 5 + (day - 1) ∧
    daysBefore leap 5 + (day - 1) ≤ 364 + leapDay leap ∧
    monthOf leap (daysBefore leap 5 + (day - 1)) = 5 := by
  have hl := leapDay_range leap
  unfold daysIn at h1
  rw [show ((5 : Int) + 1) = 6 from rfl, daysBefore_at5, daysBefore_at6] at h1
  rw [daysBefore_at5]
  refine ⟨by omega, by omega, ?_⟩
  unfold monthOf
  rw [if_neg (show ¬ 120 + leapDay leap + (day - 1) < 31 by omega), if_neg (show ¬ 120 + leapDay leap + (day - 1) < 59 + leapDay leap by omega), if_neg (show ¬ 120 + leapDay leap + (day - 1) < 90 + leapDay leap by omega), if_neg (show ¬ 120 + leapDay leap + (day - 1) < 120 + leapDay leap by omega), if_pos (show 120 + leapDay leap + (day - 1) < 151 + leapDay leap by omega)]

theorem month_at6 (leap : Bool) (day : Int) (h0 : 1 ≤ day)
    (h1 : day ≤ daysIn leap 6) :
    0 ≤ daysBefore leap 6 + (day - 1) ∧
    daysBefore leap 6 + (day - 1) ≤ 364 + leapDay leap ∧
    monthOf leap (daysBefore leap 6 + (day - 1)) = 6 := by
  have hl := leapDay_range leap
  unfold daysIn at h1
  rw [show ((6 : Int) + 1) = 7 from rfl, daysBefore_at6, daysBefore_at7] at h1
  rw [daysBefore_at6]
  refine ⟨by omega, by omega, ?_⟩
  unfold monthOf
  rw [if_neg (show ¬ 151 + leapDay leap + (day - 1) < 31 by omega), if_neg (show ¬ 151 + leapDay leap + (day - 1) < 59 + leapDay leap by omega), if_neg (show ¬ 151 + leapDay leap + (day - 1) < 90 + leapDay leap by omega), if_neg (show ¬ 151 + leapDay leap + (day - 1) < 120 + leapDay leap by omega), if_neg (show ¬ 151 + leapDay leap + (day - 1) < 151 + leapDay leap by omega), if_pos (show 151 + leapDay leap + (day - 1) < 181 + leapDay leap by omega)]

theorem month_at7 (leap : Bool) (day : Int) (h0 : 1 ≤ day)
    (h1 : day ≤ daysIn leap 7) :
    0 ≤ daysBefore leap 7 + (day - 1) ∧
    daysBefore leap 7 + (day - 1) ≤ 364 + leapDay leap ∧
    monthOf leap (daysBefore leap 7 + (day - 1)) = 7 := by
  have hl := leapDay_range leap
  unfold daysIn at h1
  rw [show ((7 : Int) + 1) = 8 from rfl, daysBefore_at7, daysBefore_at8] at h1
  rw [daysBefore_at7]
  refine ⟨by omega, by omega, ?_⟩
  unfold monthOf
  rw [if_neg (show ¬ 181 + leapDay leap + (day - 1) < 31 by omega), if_neg (show ¬ 181 + leapDay leap + (day - 1) < 59 + leapDay leap by omega), if_neg (show ¬ 181 + leapDay leap + (day - 1) < 90 + leapDay leap by omega), if_neg (show ¬ 181 + leapDay leap + (day - 1) < 120 + leapDay leap by omega), if_neg (show ¬ 181 + leapDay leap + (day - 1) < 151 + leapDay leap by omega), if_neg (show ¬ 181 + leapDay leap + (day - 1) < 181 + leapDay leap by omega), if_pos (show 181 + leapDay leap + (day - 1) < 212 + leapDay leap by omega)]

theorem month_at8 (leap : Bool) (day : Int) (h0 : 1 ≤ day)
    (h1 : day ≤ daysIn leap 8) :
    0 ≤ daysBefore leap 8 + (day - 1) ∧
    daysBefore leap 8 + (day - 1) ≤ 364 + leapDay leap ∧
    monthOf leap (daysBefore leap 8 + (day - 1)) = 8 := by
  have hl := leapDay_range leap
  unfold daysIn at h1
  rw [show ((8 : Int) + 1) = 9 from rfl, daysBefore_at8, daysBefore_at9] at h1
  rw [daysBefore_at8]
  refine ⟨by omega, by omega, ?_⟩
  unfold monthOf
  rw [if_neg (show ¬ 212 + leapDay leap + (day - 1) < 31 by omega), if_neg (show ¬ 212 + leapDay leap + (day - 1) < 59 + leapDay leap by omega), if_neg (show ¬ 212 + leapDay leap + (day - 1) < 90 + leapDay leap by omega), if_neg (show ¬ 212 + leapDay leap + (day - 1) < 120 + leapDay leap by omega), if_neg (show ¬ 212 + leapDay leap + (day - 1) < 151 + leapDay leap by omega), if_neg (show ¬ 212 + leapDay leap + (day - 1) < 181 + leapDay leap by omega), if_neg (show ¬ 212 + leapDay leap + (day - 1) < 212 + leapDay leap by omega), if_pos (show 212 + leapDay leap + (day - 1) < 243 + leapDay leap by omega)]

theorem month_at9 (leap : Bool) (day : Int) (h0 : 1 ≤ day)
    (h1 : day ≤ daysIn leap 9) :
    0 ≤ daysBefore leap 9 + (day - 1) ∧
    daysBefore leap 9 + (day - 1) ≤ 364 + leapDay leap ∧
    monthOf leap (daysBefore leap 9 + (day - 1)) = 9 := by
  have hl := leapDay_range leap
  unfold daysIn at h1
  rw [show ((9 : Int) + 1) = 10 from rfl, daysBefore_at9, daysBefore_at10] at h1
  rw [daysBefore_at9]
  refine ⟨by omega, by omega, ?_⟩
  unfold monthOf
  rw [if_neg (show ¬ 243 + leapDay leap + (day - 1) < 31 by omega), if_neg (show ¬ 243 + leapDay leap + (day - 1) < 59 + leapDay leap by omega), if_neg (show ¬ 243 + leapDay leap + (day - 1) < 90 + leapDay leap by omega), if_neg (show ¬ 243 + leapDay leap + (day - 1) < 120 + leapDay leap by omega), if_neg (show ¬ 243 + leapDay leap + (day - 1) < 151 + leapDay leap by omega), if_neg (show ¬ 243 + leapDay leap + (day - 1) < 181 + leapDay leap by omega), if_neg (show ¬ 243 + leapDay leap + (day - 1) < 212 + leapDay leap by omega), if_neg (show ¬ 243 + leapDay leap + (day - 1) < 243 + leapDay leap by omega), if_pos (show 243 + leapDay leap + (day - 1) < 273 + leapDay leap by omega)]

theorem month_at10 (leap : Bool) (day : Int) (h0 : 1 ≤ day)
    (h1 : day ≤ daysIn leap 10) :
    0 ≤ daysBefore leap 10 + (day - 1) ∧
    daysBefore leap 10 + (day - 1) ≤ 364 + leapDay leap ∧
    monthOf leap (daysBefore leap 10 + (day - 1)) = 10 := by
  have hl := leapDay_range leap
  unfold daysIn at h1
  rw [show ((10 : Int) + 1) = 11 from rfl, daysBefore_at10, daysBefore_at11] at h1
  rw [daysBefore_at10]
  refine ⟨by omega, by omega, ?_⟩
  unfold monthOf
  rw [if_neg (show ¬ 273 + leapDay leap + (day - 1) < 31 by omega), if_neg (show ¬ 273 + leapDay leap + (day - 1) < 59 + leapDay leap by omega), if_neg (show ¬ 273 + leapDay leap + (day - 1) < 90 + leapDay leap by omega), if_neg (show ¬ 273 + leapDay leap + (day - 1) < 120 + leapDay leap by omega), if_neg (show ¬ 273 + leapDay leap + (day - 1) < 151 + leapDay leap by omega), if_neg (show ¬ 273 + leapDay leap + (day - 1) < 181 + leapDay leap by omega), if_neg (show ¬ 273 + leapDay leap + (day - 1) < 212 + leapDay leap by omega), if_neg (show ¬ 273 + leapDay leap + (day - 1) < 243 + leapDay leap by omega), if_neg (show ¬ 273 + leapDay leap + (day - 1) < 273 + leapDay leap by omega), if_pos (show 273 + leapDay leap + (day - 1) < 304 + leapDay leap by omega)]

theorem month_at11 (leap : Bool) (day : Int) (h0 : 1 ≤ day)
    (h1 : day ≤ daysIn leap 11) :
    0 ≤ daysBefore leap 11 + (day - 1) ∧
    daysBefore leap 11 + (day - 1) ≤ 364 + leapDay leap ∧
    monthOf leap (daysBefore leap 11 + (day - 1)) = 11 := by
  have hl := leapDay_range leap
  unfold daysIn at h1
  rw [show ((11 : Int) + 1) = 12 from rfl, daysBefore_at11, daysBefore_at12] at h1
  rw [daysBefore_at11]
  refine ⟨by omega, by omega, ?_⟩
  unfold monthOf
  rw [if_neg (show ¬ 304 + leapDay leap + (day - 1) < 31 by omega), if_neg (show ¬ 304 + leapDay leap + (day - 1) < 59 + leapDay leap by omega), if_neg (show ¬ 304 + leapDay leap + (day - 1) < 90 + leapDay leap by omega), if_neg (show ¬ 304 + leapDay leap + (day - 1) < 120 + leapDay leap by omega), if_neg (show ¬ 304 + leapDay leap + (day - 1) < 151 + leapDay leap by omega), if_neg (show ¬ 304 + leapDay leap + (day - 1) < 181 + leapDay leap by omega), if_neg (show ¬ 304 + leapDay leap + (day - 1) < 212 + leapDay leap by omega), if_neg (show ¬ 304 + leapDay leap + (day - 1) < 243 + leapDay leap by omega), if_neg (show ¬ 304 + leapDay leap + (day - 1) < 273 + leapDay leap by omega), if_neg (show ¬ 304 + leapDay leap + (day - 1) < 304 + leapDay leap by omega), if_pos (show 304 + leapDay leap + (day - 1) < 334 + leapDay leap by omega)]

theorem month_at12 (leap : Bool) (day : Int) (h0 : 1 ≤ day)
    (h1 : day ≤ daysIn leap 12) :
    0 ≤ daysBefore leap 12 + (day - 1) ∧
    daysBefore leap 12 + (day - 1) ≤ 364 + leapDay leap ∧
    monthOf leap (daysBefore leap 12 + (day - 1)) = 12 := by
  have hl := leapDay_range leap
  unfold daysIn at h1
  rw [show ((12 : Int) + 1) = 13 from rfl, daysBefore_at12, daysBefore_at13] at h1
  rw [daysBefore_at12]
  refine ⟨by omega, by omega, ?_⟩
  unfold monthOf
  rw [if_neg (show ¬ 334 + leapDay leap + (day - 1) < 31 by omega), if_neg (show ¬ 334 + leapDay leap + (day - 1) < 59 + leapDay leap by omega), if_neg (show ¬ 334 + leapDay leap + (day - 1) < 90 + leapDay leap by omega), if_neg (show ¬ 334 + leapDay leap + (day - 1) < 120 + leapDay leap by omega), if_neg (show ¬ 334 + leapDay leap + (day - 1) < 151 + leapDay leap by omega), if_neg (show ¬ 334 + leapDay leap + (day - 1) < 181 + leapDay leap by omega), if_neg (show ¬ 334 + leapDay leap + (day - 1) < 212 + leapDay leap by omega), if_neg (show ¬ 334 + leapDay leap + (day - 1) < 243 + leapDay leap by omega), if_neg (show ¬ 334 + leapDay leap + (day - 1) < 273 + leapDay leap by omega), if_neg (show ¬ 334 + leapDay leap + (day - 1) < 304 + leapDay leap by omega), if_neg (show ¬ 334 + leapDay leap + (day - 1) < 334 + leapDay leap by omega)]

/-- The days of a month are days of the year, and `monthOf` finds the month
back. -/
theorem month_back (leap : Bool) (month day : Int) (hm0 : 1 ≤ month) (hm1 : month ≤ 12)
    (h0 : 1 ≤ day) (h1 : day ≤ daysIn leap month) :
    0 ≤ daysBefore leap month + (day - 1) ∧
    daysBefore leap month + (day - 1) ≤ 364 + leapDay leap ∧
    monthOf leap (daysBefore leap month + (day - 1)) = month := by
  have hk : month = 1 ∨ month = 2 ∨ month = 3 ∨ month = 4 ∨ month = 5 ∨ month = 6 ∨
      month = 7 ∨ month = 8 ∨ month = 9 ∨ month = 10 ∨ month = 11 ∨ month = 12 := by omega
  rcases hk with hk | hk | hk | hk | hk | hk | hk | hk | hk | hk | hk | hk
  · subst hk
    exact month_at1 leap day h0 h1
  · subst hk
    exact month_at2 leap day h0 h1
  · subst hk
    exact month_at3 leap day h0 h1
  · subst hk
    exact month_at4 leap day h0 h1
  · subst hk
    exact month_at5 leap day h0 h1
  · subst hk
    exact month_at6 leap day h0 h1
  · subst hk
    exact month_at7 leap day h0 h1
  · subst hk
    exact month_at8 leap day h0 h1
  · subst hk
    exact month_at9 leap day h0 h1
  · subst hk
    exact month_at10 leap day h0 h1
  · subst hk
    exact month_at11 leap day h0 h1
  · subst hk
    exact month_at12 leap day h0 h1

/-- A date of the calendar is the date that `civilDate` computes from its day
number: the calendar date of a day is unique. -/
theorem civilDate_unique (year month day z : Int) (hm0 : 1 ≤ month) (hm1 : month ≤ 12)
    (hd0 : 1 ≤ day) (hd1 : day ≤ daysIn (isLeap year) month)
    (hz : dayNumber year month day = z) : civilDate z = (year, month, day) := by
  obtain ⟨a, b, c⟩ := yearDay_ok z
  obtain ⟨o1, o2, o3⟩ := month_back (isLeap year) month day hm0 hm1 hd0 hd1
  unfold dayNumber at hz
  have hy : (yearDay z).1 = year := by
    rcases lt_trichotomy (yearDay z).1 year with hlt | heq | hgt
    · exfalso
      have h1 := yearStart_mono _ _ hlt
      have h2 := yearStart_succ (yearDay z).1
      have h3 := leapDay_range (isLeap (yearDay z).1)
      generalize yearStart ((yearDay z).1 + 1) = s1 at h1 h2
      generalize yearStart (yearDay z).1 = s0 at a h2
      generalize yearStart year = s2 at hz h1
      generalize daysBefore (isLeap year) month = db at hz o1 o2
      generalize leapDay (isLeap (yearDay z).1) = l0 at c h2 h3
      generalize (yearDay z).2 = yd at a b c
      omega
    · exact heq
    · exfalso
      have h1 := yearStart_mono _ _ hgt
      have h2 := yearStart_succ year
      have h3 := leapDay_range (isLeap year)
      generalize yearStart (year + 1) = s1 at h1 h2
      generalize yearStart (yearDay z).1 = s0 at a h1
      generalize yearStart year = s2 at hz h2
      generalize daysBefore (isLeap year) month = db at hz o1 o2
      generalize leapDay (isLeap year) = l0 at o2 h2 h3
      generalize (yearDay z).2 = yd at a b c
      omega
  have hyd : (yearDay z).2 = daysBefore (isLeap year) month + (day - 1) := by
    rw [hy] at a
    generalize yearStart year = s2 at hz a
    generalize daysBefore (isLeap year) month = db at hz
    generalize (yearDay z).2 = yd at a
    omega
  have e1 := civilDate_fst z
  have e2 := civilDate_month z
  have e3 := civilDate_day z
  rw [hy, hyd, o3] at e2 e3
  rw [hy] at e1
  have e4 : (civilDate z).2.2 = day := by
    rw [e3]
    generalize daysBefore (isLeap year) month = db
    omega
  exact Prod.ext e1 (Prod.ext e2 e4)

/-- A field of two digits. -/
theorem appendInt_two (x : Int) (h0 : 0 ≤ x) (h1 : x < 100) :
    appendInt x 2 = String.mk [utod (x.natAbs / 10), utod (x.natAbs % 10)] := by
  have hu : x.natAbs < 100 := by omega
  have hs : ¬ x < 0 := by omega
  simp only [appendInt, hu, hs, and_self, if_true, if_false]
  rfl

/-- A field of four digits. -/
theorem appendInt_four (x : Int) (h0 : 0 ≤ x) (h1 : x < 10000) :
    appendInt x 4 = String.mk [utod (x.natAbs / 1000), utod (x.natAbs / 100 % 10),
      utod (x.natAbs / 10 % 10), utod (x.natAbs % 10)] := by
  have hu : x.natAbs < 10000 := by omega
  have hs : ¬ x < 0 := by omega
  have h42 : ¬ ((4 : Nat) = 2 ∧ x.natAbs < 100) := by omega
  simp only [appendInt, hu, hs, h42, and_self, if_true, if_false]
  rfl

/-- C14: the rows built by updateTable are, in order, one row per fork of the
fork list, the row of a fork f being [f.NameWithOwner, Itoa f.StargazerCount,
Itoa f.AheadBy, Itoa f.BehindBy, the local date of f.UpdatedAt,
Itoa f.ForkCount]; there are as many rows as forks; the table of updateTable
is made of these rows, and two models with the same fork list get the same
table; Itoa writes an integer in decimal.  The local date of an instant is the
layout 2006-01-02 applied to the calendar date of the day in which the instant
falls once moved by the offset of the local zone: that date has a month from 1
to 12 and a day from 1 to the length of the month, counting its days from the
rule of the leap years gives back the day, and no other date of the calendar
has that day; for a year from 0 to 9999 the text is four digits of the year, a
dash, two digits of the month, a dash, two digits of the day.  Known dates are
checked, in UTC and nine hours east. -/
theorem table_rows_projection :
    (∀ (L : Libs) (forks : List Fork),
      tableRows L forks = forks.map (fun f =>
        [f.NameWithOwner, Itoa f.StargazerCount, Itoa f.AheadBy, Itoa f.BehindBy,
          formatLocalDate L f.UpdatedAt, Itoa f.ForkCount])) ∧
    (∀ (L : Libs) (forks : List Fork), (tableRows L forks).length = forks.length) ∧
    (∀ (L : Libs) (forks : List Fork) (i : Nat) (f : Fork), forks.get? i = some f →
      (tableRows L forks).get? i =
        some [f.NameWithOwner, Itoa f.StargazerCount, Itoa f.AheadBy, Itoa f.BehindBy,
          formatLocalDate L f.UpdatedAt, Itoa f.ForkCount]) ∧
    (∀ (L : Libs) (m : model L), (updateTable m).table = L.tableNew (tableRows L m.forks)) ∧
    (∀ (L : Libs) (m1 m2 : model L), m1.forks = m2.forks →
      (updateTable m1).table = (updateTable m2).table) ∧
    (Itoa 0 = "0" ∧ Itoa 1204 = "1204" ∧ Itoa (-37) = "-37") ∧
    (∀ (L : Libs) (t : Int),
      formatLocalDate L t = formatDate (civilDate ((t + L.localOffset t) / 86400))) ∧
    (∀ z : Int,
      1 ≤ (civilDate z).2.1 ∧ (civilDate z).2.1 ≤ 12 ∧ 1 ≤ (civilDate z).2.2 ∧
      (civilDate z).2.2 ≤ daysIn (isLeap (civilDate z).1) (civilDate z).2.1 ∧
      dayNumber (civilDate z).1 (civilDate z).2.1 (civilDate z).2.2 = z) ∧
    (∀ year month day z : Int, 1 ≤ month → month ≤ 12 → 1 ≤ day →
      day ≤ daysIn (isLeap year) month → dayNumber year month day = z →
      civilDate z = (year, month, day)) ∧
    (∀ year month day : Int, 0 ≤ year → year ≤ 9999 → 1 ≤ month → month ≤ 12 →
      1 ≤ day → day ≤ 31 →
      formatDate (year, month, day) =
        String.mk [utod (year.natAbs / 1000), utod (year.natAbs / 100 % 10),
          utod (year.natAbs / 10 % 10), utod (year.natAbs % 10), '-',
          utod (month.natAbs / 10), utod (month.natAbs % 10), '-',
          utod (day.natAbs / 10), utod (day.natAbs % 10)]) ∧
    ((List.range 10).map utod = ['0', '1', '2', '3', '4', '5', '6', '7', '8', '9']) ∧
    ((List.range 13).map (fun month => daysIn false month)
        = [0, 31, 28, 31, 30, 31, 30, 31, 31, 30, 31, 30, 31] ∧
      daysIn true 2 = 29 ∧ isLeap 2000 = true ∧ isLeap 1900 = false ∧
      isLeap 2024 = true ∧ isLeap 2023 = false) ∧
    (formatLocalDate plainLibs 0 = "1970-01-01" ∧
      formatLocalDate plainLibs (-1) = "1969-12-31" ∧
      formatLocalDate plainLibs 951782400 = "2000-02-29" ∧
      formatLocalDate plainLibs 951868800 = "2000-03-01" ∧
      formatLocalDate plainLibs 1700000000 = "2023-11-14" ∧
      formatLocalDate tokyoLibs 1700000000 = "2023-11-15" ∧
      formatLocalDate plainLibs 1709251199 = "2024-02-29" ∧
      formatLocalDate plainLibs 1735689599 = "2024-12-31" ∧
      formatLocalDate tokyoLibs 1735689599 = "2025-01-01") := by
  have hmap : ∀ (L : Libs) (forks : List Fork),
      tableRows L forks = forks.map (tableRow L) := by
    intro L forks
    unfold tableRows
    rw [foldl_append_map (tableRow L) forks []]
    rfl
  refine ⟨hmap, ?_, ?_, fun L m => rfl, ?_, by decide, fun L t => rfl, civilDate_dayNumber,
    civilDate_unique, ?_, by decide, by decide, by decide⟩
  · intro L forks
    rw [hmap, List.length_map]
  · intro L forks i f hf
    rw [hmap, List.get?_eq_getElem?, List.getElem?_map, ← List.get?_eq_getElem?, hf]
    rfl
  · intro L m1 m2 h
    simp only [updateTable, h]
  · intro year month day hy0 hy1 hm0 hm1 hd0 hd1
    unfold formatDate
    rw [appendInt_four year hy0 (by omega), appendInt_two month (by omega) (by omega),
      appendInt_two day (by omega) (by omega)]
    rfl

/-- C14, witness: the row of the one-fork page of the concrete runs, with the
date of 2023-11-14 22:13:20 UTC, and the same table for two models with the
same forks. -/
theorem table_rows_projection_witness :
    tableRows plainLibs [forkA] = [["alice/repo", "5", "2", "0", "2023-11-14", "1"]] ∧
    tableRows tokyoLibs [forkA] = [["alice/repo", "5", "2", "0", "2023-11-15", "1"]] ∧
    (updateTable idleOnPageOne).table = (updateTable loadingPageTwo).table ∧
    formatDate (2023, 11, 14) = String.mk ['2', '0', '2', '3', '-', '1', '1', '-', '1', '4'] :=
  ⟨by decide, by decide,
    table_rows_projection.2.2.2.2.1 plainLibs idleOnPageOne loadingPageTwo rfl,
    by
      rw [table_rows_projection.2.2.2.2.2.2.2.2.2.1 2023 11 14 (by decide) (by decide)
        (by decide) (by decide) (by decide) (by decide)]
      decide⟩

/-! ## C15: the sort field -/

/-- C15: toRepositoryOrderField maps each of the names CREATED_AT, UPDATED_AT,
PUSHED_AT, NAME and STARGAZERS to the order field whose wire value is that
name, and every other string to the order field UPDATED_AT; it returns a
field for every string. -/
theorem sort_field_translation :
    toRepositoryOrderField "CREATED_AT" = RepositoryOrderField.CreatedAt ∧
    toRepositoryOrderField "UPDATED_AT" = RepositoryOrderField.UpdatedAt ∧
    toRepositoryOrderField "PUSHED_AT" = RepositoryOrderField.PushedAt ∧
    toRepositoryOrderField "NAME" = RepositoryOrderField.Name ∧
    toRepositoryOrderField "STARGAZERS" = RepositoryOrderField.Stargazers ∧
    (∀ s : String, s = "CREATED_AT" ∨ s = "UPDATED_AT" ∨ s = "PUSHED_AT" ∨ s = "NAME"
        ∨ s = "STARGAZERS" → (toRepositoryOrderField s).wire = s) ∧
    (∀ s : String, s ≠ "CREATED_AT" → s ≠ "UPDATED_AT" → s ≠ "PUSHED_AT" → s ≠ "NAME" →
      s ≠ "STARGAZERS" → toRepositoryOrderField s = RepositoryOrderField.UpdatedAt) := by
  refine ⟨by decide, by decide, by decide, by decide, by decide, ?_, ?_⟩
  · intro s hs
    rcases hs with h | h | h | h | h <;> subst h <;> decide
  · intro s h1 h2 h3 h4 h5
    have b1 : (s == "CREATED_AT") = false := beq_eq_false_iff_ne.2 h1
    have b2 : (s == "UPDATED_AT") = false := beq_eq_false_iff_ne.2 h2
    have b3 : (s == "PUSHED_AT") = false := beq_eq_false_iff_ne.2 h3
    have b4 : (s == "NAME") = false := beq_eq_false_iff_ne.2 h4
    have b5 : (s == "STARGAZERS") = false := beq_eq_false_iff_ne.2 h5
    simp only [toRepositoryOrderField, sortMap, List.lookup, b1, b2, b3, b4, b5]

/-- C15, witness: a name that is not in the map, and a name with other letters
than a key of the map. -/
theorem sort_field_translation_witness :
    toRepositoryOrderField "FORKS" = RepositoryOrderField.UpdatedAt ∧
    toRepositoryOrderField "stargazers" = RepositoryOrderField.UpdatedAt ∧
    (toRepositoryOrderField "NAME").wire = "NAME" :=
  ⟨sort_field_translation.2.2.2.2.2.2 "FORKS" (by decide) (by decide) (by decide)
      (by decide) (by decide),
    sort_field_translation.2.2.2.2.2.2 "stargazers" (by decide) (by decide) (by decide)
      (by decide) (by decide),
    sort_field_translation.2.2.2.2.2.1 "NAME" (by decide)⟩

/-! ## C16: a repository without forks -/

/-- C16: when the client is made and the query DefaultBranch succeeds,
getDefaultBranch returns the error ErrNoForks if and only if the fork count of
the result is 0, and otherwise returns the name of the default branch and no
error.  Once the repository is resolved, main exits with status 0, without
starting the loop, when the error of getDefaultBranch is ErrNoForks, exits
with status 1 on every other error, and starts the loop when there is no
error; and a status 0 before the loop comes from ErrNoForks only. -/
theorem zero_forks_is_informational_exit :
    (∀ (w : World) (owner name : String) (q : DefaultBranchResult),
      w.newClient = none → w.queryDefaultBranch owner name = Except.ok q →
      ((getDefaultBranch w owner name).2 = some GoError.ErrNoForks ↔ q.ForkCount = 0) ∧
      (q.ForkCount = 0 → getDefaultBranch w owner name = ("", some GoError.ErrNoForks)) ∧
      (q.ForkCount ≠ 0 → getDefaultBranch w owner name = (q.Name, none))) ∧
    (∀ (L : Libs) (w : World) (owner name : String),
      resolveRepository w = Except.ok (owner, name) →
      ((getDefaultBranch w owner name).2 = some GoError.ErrNoForks →
        main L w = Started.exit 0 "No forks found for this repository. Exiting.\n") ∧
      (∀ e, (getDefaultBranch w owner name).2 = some e → e ≠ GoError.ErrNoForks →
        main L w = Started.exit 1 ("Error: " ++ e.text ++ "\n")) ∧
      ((getDefaultBranch w owner name).2 = none →
        main L w = Started.loop
          (initialModel L owner name (owner ++ ":" ++ (getDefaultBranch w owner name).1)))) ∧
    (∀ (L : Libs) (w : World) (e : String), resolveRepository w = Except.error e →
      main L w = Started.exit 1 ("Error: " ++ e ++ "\n")) ∧
    (∀ (L : Libs) (w : World),
      (∃ out, main L w = Started.exit 0 out) ↔
        ∃ owner name, resolveRepository w = Except.ok (owner, name) ∧
          (getDefaultBranch w owner name).2 = some GoError.ErrNoForks) := by
  have hmain : ∀ (L : Libs) (w : World) (owner name : String),
      resolveRepository w = Except.ok (owner, name) →
      ((getDefaultBranch w owner name).2 = some GoError.ErrNoForks →
        main L w = Started.exit 0 "No forks found for this repository. Exiting.\n") ∧
      (∀ e, (getDefaultBranch w owner name).2 = some e → e ≠ GoError.ErrNoForks →
        main L w = Started.exit 1 ("Error: " ++ e.text ++ "\n")) ∧
      ((getDefaultBranch w owner name).2 = none →
        main L w = Started.loop
          (initialModel L owner name (owner ++ ":" ++ (getDefaultBranch w owner name).1))) := by
    intro L w owner name hr
    cases hg : getDefaultBranch w owner name with
    | mk b err =>
      cases err with
      | none =>
        refine ⟨fun h => by simp at h, fun e h => by simp at h, fun _ => ?_⟩
        simp only [main, hr, hg]
      | some e0 =>
        refine ⟨fun h => ?_, fun e h hne => ?_, fun h => by simp at h⟩
        · simp only [Option.some.injEq] at h
          subst h
          simp only [main, hr, hg, if_true]
        · simp only [Option.some.injEq] at h
          subst h
          simp only [main, hr, hg, if_neg hne]
  have herr : ∀ (L : Libs) (w : World) (e : String), resolveRepository w = Except.error e →
      main L w = Started.exit 1 ("Error: " ++ e ++ "\n") := by
    intro L w e hr
    simp only [main, hr]
  refine ⟨?_, hmain, herr, ?_⟩
  · intro w owner name q hc hq
    by_cases h0 : q.ForkCount = 0
    · have hg : getDefaultBranch w owner name = ("", some GoError.ErrNoForks) := by
        simp only [getDefaultBranch, hc, hq, if_pos h0]
      exact ⟨⟨fun _ => h0, fun _ => by rw [hg]⟩, fun _ => hg, fun hne => absurd h0 hne⟩
    · have hg : getDefaultBranch w owner name = (q.Name, none) := by
        simp only [getDefaultBranch, hc, hq, if_neg h0]
      refine ⟨⟨fun h => ?_, fun h => absurd h h0⟩, fun h => absurd h h0, fun _ => hg⟩
      rw [hg] at h
      simp at h
  · intro L w
    constructor
    · rintro ⟨out, hout⟩
      cases hr : resolveRepository w with
      | error e =>
        rw [herr L w e hr] at hout
        simp at hout
      | ok repo =>
        obtain ⟨owner, name⟩ := repo
        refine ⟨owner, name, rfl, ?_⟩
        obtain ⟨_, h2, h3⟩ := hmain L w owner name hr
        cases hg : (getDefaultBranch w owner name).2 with
        | none =>
          rw [h3 hg] at hout
          simp at hout
        | some e =>
          by_cases he : e = GoError.ErrNoForks
          · rw [he]
          · rw [h2 e hg he] at hout
            simp at hout
    · rintro ⟨owner, name, hr, hg⟩
      exact ⟨_, (hmain L w owner name hr).1 hg⟩

/-- C16, witness: a repository without forks ends main with status 0, and a
repository with seven forks starts the loop on its default branch. -/
theorem zero_forks_is_informational_exit_witness :
    main plainLibs noForks
      = Started.exit 0 "No forks found for this repository. Exiting.\n" ∧
    main plainLibs sevenForks = Started.loop (initialModel plainLibs "o" "r" "o:main") :=
  ⟨(zero_forks_is_informational_exit.2.1 plainLibs noForks "o" "r" rfl).1 rfl,
    (zero_forks_is_informational_exit.2.1 plainLibs sevenForks "o" "r" rfl).2.2 rfl⟩

/-! ## C18: the message built from the answer of the query -/

/-- C18: when the client is made and the query Forks succeeds, the closure of
fetchForks returns a message whose forks are, in order, one per node of the
answer: NameWithOwner, StargazerCount, ForkCount, UpdatedAt and Url are those
of the node, AheadBy is the BehindBy of the comparison of the node and
BehindBy is its AheadBy; the page of the message is the page index the
closure was made with, and totalCount, endCursor and hasNext are TotalCount,
PageInfo.EndCursor and PageInfo.HasNextPage of the answer. -/
theorem fetch_response_mapping (w : World) (r : FetchReq) (q : ForksResult)
    (hc : w.newClient = none)
    (hq : w.queryForks ⟨r.owner, r.name, toRepositoryOrderField r.sortBy, r.headRef,
      r.endCursor⟩ = Except.ok q) :
    ∃ msg, runFetch w r = Except.ok msg ∧
      msg.forks.length = q.Nodes.length ∧
      msg.forks = q.Nodes.map (fun node =>
        { NameWithOwner := node.NameWithOwner
          StargazerCount := node.StargazerCount
          ForkCount := node.ForkCount
          UpdatedAt := node.UpdatedAt
          Url := node.Url
          AheadBy := node.DefaultBranchRef.Compare.BehindBy
          BehindBy := node.DefaultBranchRef.Compare.AheadBy }) ∧
      (∀ (i : Nat) (node : Node), q.Nodes.get? i = some node →
        ∃ f, msg.forks.get? i = some f ∧
          f.NameWithOwner = node.NameWithOwner ∧ f.StargazerCount = node.StargazerCount ∧
          f.ForkCount = node.ForkCount ∧ f.UpdatedAt = node.UpdatedAt ∧ f.Url = node.Url ∧
          f.AheadBy = node.DefaultBranchRef.Compare.BehindBy ∧
          f.BehindBy = node.DefaultBranchRef.Compare.AheadBy) ∧
      msg.page = r.page ∧ msg.totalCount = q.TotalCount ∧
      msg.endCursor = q.PageInfo.EndCursor ∧ msg.hasNext = q.PageInfo.HasNextPage := by
  have hmap : forksOfNodes q.Nodes = q.Nodes.map forkOfNode := by
    unfold forksOfNodes
    rw [foldl_append_map forkOfNode q.Nodes []]
    rfl
  have hrun : runFetch w r = Except.ok
      { forks := forksOfNodes q.Nodes
        page := r.page
        totalCount := q.TotalCount
        endCursor := q.PageInfo.EndCursor
        hasNext := q.PageInfo.HasNextPage } := by
    simp only [runFetch, hc, hq]
  refine ⟨_, hrun, ?_, ?_, ?_, rfl, rfl, rfl, rfl⟩
  · show (forksOfNodes q.Nodes).length = _
    rw [hmap, List.length_map]
  · show forksOfNodes q.Nodes = _
    rw [hmap]
    rfl
  · intro i node hn
    refine ⟨forkOfNode node, ?_, rfl, rfl, rfl, rfl, rfl, rfl, rfl⟩
    show (forksOfNodes q.Nodes).get? i = _
    rw [hmap, List.get?_eq_getElem?, List.getElem?_map, ← List.get?_eq_getElem?, hn]
    rfl

/-- C18, witness: the answer with one node whose comparison is 0 ahead and 2
behind gives the fork that is 2 ahead and 0 behind. -/
theorem fetch_response_mapping_witness :
    ∃ msg, runFetch sevenForks ⟨"o", "r", "o:main", 0, "UPDATED_AT", none⟩ = Except.ok msg ∧
      msg.forks = [forkA] ∧ msg.page = 0 ∧ msg.totalCount = 7 ∧
      msg.endCursor = some "c0" ∧ msg.hasNext = true := by
  obtain ⟨msg, h1, _, h2, _, h3, h4, h5, h6⟩ :=
    fetch_response_mapping sevenForks ⟨"o", "r", "o:main", 0, "UPDATED_AT", none⟩ _ rfl rfl
  exact ⟨msg, h1, h2, h3, h4, h5, h6⟩

/-! ## C12: the cursor of a started fetch -/

/-- The method `loadCachedPage` leaves the sort field and the cursor. -/
theorem loadCachedPage_sort {L : Libs} (m : model L) :
    (loadCachedPage m).sortBy = m.sortBy ∧ (loadCachedPage m).endCursor = m.endCursor := by
  unfold loadCachedPage
  cases m.pages m.page <;> exact ⟨rfl, rfl⟩

theorem updateLoaded_sort {L : Libs} (m : model L) (fl : forksLoadedMsg) :
    (updateLoaded m fl).m.sortBy = m.sortBy ∧
    (updateLoaded m fl).m.endCursor = fl.endCursor := by
  cases h : fl.hasNext <;> simp [updateLoaded, updateTable, h]

theorem sentBy_key {L : Libs} (m : model L) (k : String) (st : Step L)
    (hu : updateKey m k = Except.ok st) : sentBy m (Msg.KeyMsg k) = st.cmd.fetches := by
  simp [sentBy, Update, hu]

/-- What one turn of the event loop does to a state that satisfies the
invariant: nothing is started and the cache, the sort field and the cursor
stay; or the fetch of the next page is started with the sort field and the
cursor of the model; or a sort key starts the fetch of page 0 without a
cursor; or the outstanding fetch is answered. -/
theorem step_summary {L : Libs} {s s1 : Sys L} {n : Int} (h : RunInv s n) (msg : Msg)
    (hs : s.step msg = some s1) :
    (sentBy s.m msg = [] ∧ RunInv s1 n ∧ s1.m.sortBy = s.m.sortBy ∧
      s1.m.endCursor = s.m.endCursor ∧ s1.pending = s.pending ∧
      ∀ fl, msg ≠ Msg.forksLoaded fl) ∨
    (0 < n ∧
      sentBy s.m msg = [⟨s.m.owner, s.m.name, s.m.headRef, n, s.m.sortBy, s.m.endCursor⟩] ∧
      s1.pending = sentBy s.m msg ∧ RunInv s1 n ∧ s1.m.sortBy = s.m.sortBy ∧
      s1.m.endCursor = s.m.endCursor ∧ ∀ fl, msg ≠ Msg.forksLoaded fl) ∨
    ((∃ r, sentBy s.m msg = [r] ∧ s1.pending = [r] ∧ r.page = 0 ∧ r.endCursor = none ∧
        r.sortBy = s1.m.sortBy) ∧ RunInv s1 0 ∧ ∀ fl, msg ≠ Msg.forksLoaded fl) ∨
    (∃ fl r, msg = Msg.forksLoaded fl ∧ s.pending = [r] ∧ r.page = n ∧ fl.page = n ∧
      sentBy s.m msg = [] ∧ s1.pending = [] ∧ RunInv s1 (n + 1) ∧
      s1.m.endCursor = fl.endCursor ∧ s1.m.sortBy = s.m.sortBy) := by
  cases msg with
  | KeyMsg k =>
    have hne : ∀ fl, Msg.KeyMsg k ≠ Msg.forksLoaded fl := fun fl hc => by cases hc
    rcases updateKey_cases s.m k with hu | ⟨hl, _, hp, hu⟩ | ⟨hp, hu⟩ | ⟨hp, _, hu⟩
      | ⟨hl, _, hu⟩ | ⟨hl, _, hu⟩ | ⟨_, e, hu⟩ | ⟨_, u, hu⟩ | hu
    · rw [step_key_ok s k _ hu, Option.some.injEq] at hs
      subst hs
      left
      rw [sentBy_key s.m k _ hu, tableFallback_fetches]
      exact ⟨rfl, h.frame _ rfl rfl rfl rfl rfl, rfl, rfl, List.append_nil _, hne⟩
    · rw [step_key_ok s k _ hu, Option.some.injEq] at hs
      subst hs
      have hinv := h.next hl hp
      obtain ⟨hpend, hn⟩ := h.idle hl
      rw [sentBy_key s.m k _ hu]
      cases hq : s.m.pages (s.m.page + 1) with
      | some fs =>
        left
        rw [gotoNextPage_cached s.m fs hq] at hinv ⊢
        exact ⟨rfl, hinv, rfl, rfl, List.append_nil _, hne⟩
      | none =>
        right; left
        have hlt := h.page_lt hn
        have hnn := h.pageNonneg
        have heq : s.m.page + 1 = n := by
          by_contra hcon
          exact (h.keys (s.m.page + 1)).2 ⟨by omega, by omega⟩ hq
        rw [gotoNextPage_miss s.m hq] at hinv ⊢
        refine ⟨hn, ?_, ?_, hinv, rfl, rfl, hne⟩
        · show [(⟨s.m.owner, s.m.name, s.m.headRef, s.m.page + 1, s.m.sortBy,
            s.m.endCursor⟩ : FetchReq)] = _
          rw [heq]
        · show s.pending ++ _ = _
          rw [hpend]
          rfl
    · rw [step_key_ok s k _ hu, Option.some.injEq] at hs
      subst hs
      left
      rw [sentBy_key s.m k _ hu]
      obtain ⟨a, b, c, d, e⟩ := loadCachedPage_fields { s.m with page := s.m.page - 1 }
      obtain ⟨f, g⟩ := loadCachedPage_sort { s.m with page := s.m.page - 1 }
      exact ⟨rfl, h.previous _ hp a b e c d, f, g, List.append_nil _, hne⟩
    · rw [step_key_ok s k _ hu, Option.some.injEq] at hs
      subst hs
      left
      rw [sentBy_key s.m k _ hu]
      obtain ⟨a, b, c, d, e⟩ := loadCachedPage_fields { s.m with page := s.m.page - 1 }
      obtain ⟨f, g⟩ := loadCachedPage_sort { s.m with page := s.m.page - 1 }
      exact ⟨rfl, h.previous _ hp a b e c d, f, g, List.append_nil _, hne⟩
    · rw [step_key_ok s k _ hu, Option.some.injEq] at hs
      subst hs
      right; right; left
      rw [sentBy_key s.m k _ hu]
      obtain ⟨hpend, _⟩ := h.idle hl
      refine ⟨⟨_, rfl, ?_, rfl, rfl, rfl⟩, h.sort hl "STARGAZERS", hne⟩
      show s.pending ++ _ = _
      rw [hpend]
      rfl
    · rw [step_key_ok s k _ hu, Option.some.injEq] at hs
      subst hs
      right; right; left
      rw [sentBy_key s.m k _ hu]
      obtain ⟨hpend, _⟩ := h.idle hl
      refine ⟨⟨_, rfl, ?_, rfl, rfl, rfl⟩, h.sort hl "UPDATED_AT", hne⟩
      show s.pending ++ _ = _
      rw [hpend]
      rfl
    · rw [step_key_error s k e hu] at hs
      exact absurd hs (by simp)
    · rw [step_key_ok s k _ hu, Option.some.injEq] at hs
      subst hs
      left
      rw [sentBy_key s.m k _ hu]
      exact ⟨rfl, h.frame _ rfl rfl rfl rfl rfl, rfl, rfl, List.append_nil _, hne⟩
    · rw [step_key_ok s k _ hu, Option.some.injEq] at hs
      subst hs
      left
      rw [sentBy_key s.m k _ hu]
      exact ⟨rfl, h.frame _ rfl rfl rfl rfl rfl, rfl, rfl, List.append_nil _, hne⟩
  | forksLoaded fl =>
    right; right; right
    cases hp : s.pending with
    | nil => simp [Sys.step, hp, answer] at hs
    | cons r rs =>
      obtain ⟨h1, h2, _, h4⟩ := h.pend r (by rw [hp]; exact List.mem_cons_self r rs)
      cases ha : answer s.pending fl.page with
      | none => simp [Sys.step, ha] at hs
      | some rest =>
        rw [h1] at ha
        obtain ⟨hpage, hrest⟩ := answer_single r fl.page rest ha
        have hs2 : s.step (Msg.forksLoaded fl)
            = some ⟨(updateLoaded s.m fl).m, [] ++ (updateLoaded s.m fl).cmd.fetches⟩ := by
          simp [Sys.step, Update, h1, answer, hpage]
        rw [hs2, Option.some.injEq] at hs
        subst hs
        rw [← hp]
        exact ⟨fl, r, rfl, h1, h2, by omega, rfl, rfl, h.loaded fl (by omega) h4,
          (updateLoaded_sort s.m fl).2, (updateLoaded_sort s.m fl).1⟩
  | TickMsg t =>
    have hs2 : s.step (Msg.TickMsg t)
        = some ⟨{ s.m with spinner := (L.spinnerUpdate s.m.spinner (Msg.TickMsg t)).1 },
            s.pending ++ []⟩ := by
      simp [Sys.step, Update, Cmd.fetches_ofLib]
    rw [hs2, Option.some.injEq] at hs
    subst hs
    left
    exact ⟨Cmd.fetches_ofLib _, h.frame _ rfl rfl rfl rfl rfl, rfl, rfl, List.append_nil _,
      fun fl hc => by cases hc⟩
  | other t =>
    have hs2 : s.step (Msg.other t)
        = some ⟨(tableFallback s.m (Msg.other t)).m, s.pending ++ []⟩ := by
      simp [Sys.step, Update, tableFallback_fetches]
    rw [hs2, Option.some.injEq] at hs
    subst hs
    left
    exact ⟨tableFallback_fetches _ _, h.frame _ rfl rfl rfl rfl rfl, rfl, rfl,
      List.append_nil _, fun fl hc => by cases hc⟩

theorem lastAfter_other (last : Option (FetchReq × forksLoadedMsg)) (pending : List FetchReq)
    (msg : Msg) (hne : ∀ fl, msg ≠ Msg.forksLoaded fl) :
    lastAfter last pending msg = last := by
  cases msg with
  | forksLoaded fl => exact absurd rfl (hne fl)
  | KeyMsg k => rfl
  | TickMsg t => rfl
  | other t => rfl

/-- The start of a run with its history satisfies the invariant. -/
theorem HistInv.atStart (L : Libs) (owner name headRef : String) :
    HistInv (Hist.init L owner name headRef) 0 := by
  constructor
  · exact RunInv.init L owner name headRef
  · intro hn
    omega
  · intro r hr
    simp only [Hist.init, Sys.init, Init, initialModel, Cmd.fetches, fetchForks,
      List.nil_append, List.mem_singleton] at hr
    subst hr
    rfl
  · intro e he
    simp only [Hist.init, Sys.init, Init, initialModel, Cmd.fetches, fetchForks,
      List.nil_append, List.map_cons, List.map_nil, List.mem_singleton] at he
    subst he
    exact Or.inl ⟨rfl, rfl⟩

/-- Every turn of the event loop keeps the invariant of the history. -/
theorem HistInv.turn {L : Libs} {h h1 : Hist L} {n : Int} (hi : HistInv h n) (msg : Msg)
    (hs : h.step msg = some h1) : ∃ n1, HistInv h1 n1 := by
  cases hsys : h.sys.step msg with
  | none => simp [Hist.step, hsys] at hs
  | some s1 =>
    simp only [Hist.step, hsys, Option.some.injEq] at hs
    subst hs
    rcases step_summary hi.base msg hsys with
      ⟨hsent, hinv, hsort, hcur, hpend, hne⟩ | ⟨hn, hsent, hpend, hinv, hsort, hcur, hne⟩
      | ⟨⟨r, hsent, hpend, hr1, hr2, hr3⟩, hinv, hne⟩
      | ⟨fl, r, hmsg, hpend, hr, hfl, hsent, hpend1, hinv, hcur, hsort⟩
    · refine ⟨n, hinv, ?_, ?_, ?_⟩
      · intro hn
        obtain ⟨r0, fl, a, b, c, d, e⟩ := hi.chain hn
        exact ⟨r0, fl, by rw [← a]; exact lastAfter_other _ _ _ hne, b, c,
          by rw [d]; exact hcur.symm, by rw [e]; exact hsort.symm⟩
      · intro r hr
        show r.sortBy = s1.m.sortBy
        rw [hsort]
        exact hi.pendSort r (by rw [← hpend]; exact hr)
      · intro e he
        simp only [hsent, List.map_nil, List.append_nil] at he
        exact hi.logOk e he
    · obtain ⟨r0, fl, a, b, c, d, e⟩ := hi.chain hn
      refine ⟨n, hinv, ?_, ?_, ?_⟩
      · intro _
        exact ⟨r0, fl, by rw [← a]; exact lastAfter_other _ _ _ hne, b, c,
          by rw [d]; exact hcur.symm, by rw [e]; exact hsort.symm⟩
      · intro r hr
        have hr2 : r ∈ s1.pending := hr
        rw [hpend, hsent, List.mem_singleton] at hr2
        subst hr2
        exact hsort.symm
      · intro e he
        simp only [hsent, List.map_cons, List.map_nil, List.mem_append,
          List.mem_singleton] at he
        rcases he with he | he
        · exact hi.logOk e he
        · subst he
          right
          exact ⟨r0, fl, a, by omega, by show n = r0.page + 1; omega, d.symm, e⟩
    · refine ⟨0, hinv, ?_, ?_, ?_⟩
      · intro hn
        omega
      · intro r2 hr
        have hr2 : r2 ∈ s1.pending := hr
        rw [hpend, List.mem_singleton] at hr2
        subst hr2
        exact hr3
      · intro e he
        simp only [hsent, List.map_cons, List.map_nil, List.mem_append,
          List.mem_singleton] at he
        rcases he with he | he
        · exact hi.logOk e he
        · subst he
          exact Or.inl ⟨hr1, hr2⟩
    · subst hmsg
      have hans : answered h.sys.pending fl.page = some r := by
        rw [hpend]
        simp [answered, hr, hfl]
      refine ⟨n + 1, hinv, ?_, ?_, ?_⟩
      · intro _
        refine ⟨r, fl, ?_, by omega, by omega, hcur.symm, ?_⟩
        · show lastAfter h.last h.sys.pending (Msg.forksLoaded fl) = _
          simp only [lastAfter, hans]
        · show r.sortBy = s1.m.sortBy
          rw [hsort]
          exact hi.pendSort r (by rw [hpend]; exact List.mem_singleton.2 rfl)
      · intro r2 hr2
        have hr3 : r2 ∈ s1.pending := hr2
        rw [hpend1] at hr3
        exact absurd hr3 (List.not_mem_nil r2)
      · intro e he
        simp only [hsent, List.map_nil, List.append_nil] at he
        exact hi.logOk e he

/-- Every state of a run with its history satisfies the invariant. -/
theorem HistInv.always {L : Libs} (evs : List Msg) :
    ∀ (h h1 : Hist L) (n : Int), HistInv h n → h.run evs = some h1 →
      ∃ n1, HistInv h1 n1 := by
  induction evs with
  | nil =>
    intro h h1 n hi hr
    simp only [Hist.run, Option.some.injEq] at hr
    subst hr
    exact ⟨n, hi⟩
  | cons e es ih =>
    intro h h1 n hi hr
    cases hst : h.step e with
    | none => simp [Hist.run, hst] at hr
    | some h2 =>
      simp only [Hist.run, hst] at hr
      obtain ⟨n2, hi2⟩ := hi.turn e hst
      exact ih h2 h1 n2 hi2 hr

/-- The history adds nothing to the run: the states of a run with its history
are the states of the run. -/
theorem Hist.run_sys {L : Libs} (evs : List Msg) :
    ∀ h : Hist L, (h.run evs).map Hist.sys = h.sys.run evs := by
  induction evs with
  | nil =>
    intro h
    rfl
  | cons e es ih =>
    intro h
    cases hst : h.sys.step e with
    | none => simp [Hist.run, Hist.step, Sys.run, hst]
    | some s1 =>
      simp only [Hist.run, Hist.step, Sys.run, hst]
      exact ih _

/-- C12: in every run from the initial model in which each completion answers
the outstanding fetch, every fetch that was started either is for page 0 and
carries no cursor, or is for page n+1 and carries the endCursor of the most
recent completion, that completion being for page n and the answer of a fetch
for page n with the same sort field; so a fetch that carries a cursor carries
the one returned to a fetch of its own sort field.  The fetch of Init is in
the log, each later started fetch is added to it, and the states of the run
with its log are those of the run. -/
theorem cursor_belongs_to_sort_mode :
    (∀ (L : Libs) (owner name headRef : String) (evs : List Msg) (h : Hist L),
      (Hist.init L owner name headRef).run evs = some h → ∀ e ∈ h.log,
      ((e.req.page = 0 ∧ e.req.endCursor = none) ∨
        ∃ r0 fl, e.last = some (r0, fl) ∧ fl.page = r0.page ∧
          e.req.page = r0.page + 1 ∧ e.req.endCursor = fl.endCursor ∧
          r0.sortBy = e.req.sortBy) ∧
      (∀ c, e.req.endCursor = some c →
        ∃ r0 fl, e.last = some (r0, fl) ∧ fl.endCursor = some c ∧
          r0.sortBy = e.req.sortBy)) ∧
    (∀ (L : Libs) (owner name headRef : String),
      (Hist.init L owner name headRef).log
        = [⟨⟨owner, name, headRef, 0, "UPDATED_AT", none⟩, none⟩]) ∧
    (∀ (L : Libs) (h h1 : Hist L) (msg : Msg), h.step msg = some h1 →
      h1.log = h.log ++ (sentBy h.sys.m msg).map (fun r => ⟨r, h.last⟩)) ∧
    (∀ (L : Libs) (owner name headRef : String) (evs : List Msg),
      ((Hist.init L owner name headRef).run evs).map Hist.sys
        = (Sys.init L owner name headRef).run evs) := by
  refine ⟨?_, fun L owner name headRef => rfl, ?_, fun L owner name headRef evs =>
    Hist.run_sys evs _⟩
  · intro L owner name headRef evs h hr e he
    obtain ⟨n, hi⟩ := HistInv.always evs _ h 0 (HistInv.atStart L owner name headRef) hr
    have hc := hi.logOk e he
    refine ⟨hc, ?_⟩
    intro c hcur
    rcases hc with ⟨_, h2⟩ | ⟨r0, fl, a, _, _, d, e2⟩
    · rw [h2] at hcur
      exact absurd hcur (by simp)
    · exact ⟨r0, fl, a, by rw [← d]; exact hcur, e2⟩
  · intro L h h1 msg hs
    cases hsys : h.sys.step msg with
    | none => simp [Hist.step, hsys] at hs
    | some s1 =>
      simp only [Hist.step, hsys, Option.some.injEq] at hs
      subst hs
      rfl

/-- C12, witness: two pages arrive, the user sorts by stars, page 0 of that
order arrives and the key right starts the fetch of page 1: it carries the
cursor "s0" of the completion under STARGAZERS, not the cursor "c1" that was
returned under UPDATED_AT. -/
theorem cursor_belongs_to_sort_mode_witness :
    ∃ h, sessionHist.run sortThenNext = some h ∧
      h.log.map Sent.req =
        [⟨"o", "r", "o:main", 0, "UPDATED_AT", none⟩,
          ⟨"o", "r", "o:main", 1, "UPDATED_AT", some "c0"⟩,
          ⟨"o", "r", "o:main", 0, "STARGAZERS", none⟩,
          ⟨"o", "r", "o:main", 1, "STARGAZERS", some "s0"⟩] ∧
      ∀ e ∈ h.log, ∀ c, e.req.endCursor = some c →
        ∃ r0 fl, e.last = some (r0, fl) ∧ fl.endCursor = some c ∧
          r0.sortBy = e.req.sortBy :=
  ⟨_, rfl, rfl, fun e he =>
    (cursor_belongs_to_sort_mode.1 plainLibs "o" "r" "o:main" sortThenNext _ rfl e he).2⟩

end GhForks
